import Mathlib

/-!
# 64K one-time-pad tool: shallow embedding of `64k_1.1.c` and `64k_1.2.c`

Bytes (`unsigned char`) are natural numbers below 256; a store into an
`unsigned char` object whose value is computed by an expression is written with
an explicit `% 256`.  A file is the list of its bytes.  The environment of a
call (whether `fopen(…, "wb")`, `malloc`, `fwrite` and `RAND_bytes` succeed, and
what they deliver) is an explicit parameter `Env`; everything a call does to the
outside world is recorded in its `Outcome`.  Reading is the one operation taken
never to fail: `fread` delivers the bytes of the file up to its end.  An
`exit(EXIT_FAILURE)` ends the call with the `Status` of the exit taken.
-/

set_option linter.unusedVariables false

namespace OTP

/-- Constant `PAD_SIZE` (64 KB), the size of the pad `main` asks for. -/
def PAD_SIZE : Nat := 65536

/-- Constant `BUFFER_SIZE`, the size of every working buffer. -/
def BUFFER_SIZE : Nat := 4096

/-- Constant `MIN_PAD_SIZE`, the least pad length version 1.2 accepts. -/
def MIN_PAD_SIZE : Nat := 1024

/-- How a call ended: a normal return, or one of the `exit(EXIT_FAILURE)` sites,
named after the message printed there. -/
inductive Status
  | success
  | invalidLength   -- "Error: Pad size must be at least %d bytes."
  | openError       -- "Error opening pad file." / "Error opening files."
  | allocError      -- "Error allocating memory."
  | rngError        -- "Error generating secure random bytes."
  | writeError      -- "Error writing to pad file." / "Error writing to output file."
  | padExhausted    -- "Error: Pad file is too short."
  deriving DecidableEq, Repr

/-- The `FILE *` variables of the two operations. -/
inductive Handle
  | input
  | pad
  | output
  deriving DecidableEq, Repr

/-- The file system: the bytes of the file at each path; `none` when
`fopen(path, "rb")` fails. -/
abbrev Files := String → Option (List Nat)

/-- The file system with the file at `path` replaced by `data`. -/
def Files.write (fs : Files) (path : String) (data : List Nat) : Files :=
  fun p => if p = path then some data else fs p

/-- Responses of the environment during one call.
* `can_create path`: `fopen(path, "wb")` succeeds;
* `heap k`: the `k`-th `malloc` of the call returns `NULL` (`none`) or a block
  whose indeterminate initial contents are given by the function;
* `fwrite_ret off n`: how many bytes an `fwrite`/`fputc` of `n` bytes accepts when
  `off` bytes have been written to the stream so far (capped at `n`);
* `rand k`: the `k`-th `RAND_bytes` call fails (`none`) or delivers the bytes
  given by the function. -/
structure Env where
  can_create : String → Bool
  heap : Nat → Option (Nat → Nat)
  fwrite_ret : Nat → Nat → Nat
  rand : Nat → Option (Nat → Nat)

/-- What a call did: its exit status, the file system it leaves, the number of
`fopen`, `malloc` and `RAND_bytes` calls it made, the contents of every buffer at
the moment it was passed to `free` (in order), the `fclose` calls (in order), the
number of bytes read from the input and pad streams, and the chunks of bytes the
successful `RAND_bytes` calls returned (in order). -/
structure Outcome where
  status : Status
  files : Files
  fopens : Nat
  mallocs : Nat
  rand_calls : Nat
  released : List (List Nat)
  closed : List Handle
  input_read : Nat
  pad_read : Nat
  rand_log : List (List Nat)

/-- A stream opened for reading: the bytes of the file and the read position. -/
structure RStream where
  data : List Nat
  pos : Nat

/-- Call `fread(buf, 1, n, f)`: the bytes delivered (at most `n`, fewer at end of
file) and the stream advanced past them. -/
def fread (f : RStream) (n : Nat) : List Nat × RStream :=
  let bytes := (f.data.drop f.pos).take n
  (bytes, { f with pos := f.pos + bytes.length })

/-- A buffer after `bytes` were stored at its start. -/
def store (buf bytes : List Nat) : List Nat :=
  bytes ++ buf.drop bytes.length

/-- Call `malloc(n)` as the `k`-th allocation of the call. -/
def malloc (e : Env) (k n : Nat) : Option (List Nat) :=
  (e.heap k).map (fun g => (List.range n).map (fun i => g i % 256))

/-- The loop of `secure_memzero`: `while (n--) *p++ = 0;` with `p` the offset of the
pointer into the buffer. -/
def secure_memzero_loop : Nat → Nat → List Nat → List Nat
  | 0, _, v => v
  | n + 1, p, v => secure_memzero_loop n (p + 1) (v.set p 0)

/-- Function `secure_memzero(v, n)`. -/
def secure_memzero (v : List Nat) (n : Nat) : List Nat :=
  secure_memzero_loop n 0 v

/-- Call `fwrite(data, 1, data.length, f)` on a stream holding `out`: the stream after
the call and the number of bytes written (the return value). -/
def fwrite (e : Env) (out data : List Nat) : List Nat × Nat :=
  let written := min data.length (e.fwrite_ret out.length data.length)
  (out ++ data.take written, written)

namespace V12

/-- Loop `for (i = 0; i < chunk; i++) buffer[i] = (buffer[i] % 95) + 32;` with `k`
iterations left and loop variable `i`. -/
def remap_loop : Nat → Nat → List Nat → List Nat
  | 0, _, buffer => buffer
  | k + 1, i, buffer =>
      remap_loop k (i + 1) (buffer.set i (((buffer.getD i 0) % 95 + 32) % 256))

/-- Expression `(remaining < BUFFER_SIZE) ? remaining : BUFFER_SIZE`. -/
def chunk_of (remaining : Nat) : Nat :=
  if remaining < BUFFER_SIZE then remaining else BUFFER_SIZE

/-- State of `generate_random_pad` inside its loop. -/
structure GenState where
  remaining : Nat
  buffer : List Nat
  pad : List Nat
  rand_calls : Nat
  rand_log : List (List Nat)
  released : List (List Nat)
  closed : List Handle

/-- Result of one pass through a loop body. -/
inductive Step (σ : Type)
  | next (s : σ)
  | done (s : σ)
  | fail (st : Status) (s : σ)

/-- One test of `while (remaining > 0)` followed by the loop body (lines 79-106). -/
def gen_body (e : Env) (s : GenState) : Step GenState :=
  if s.remaining > 0 then
    let chunk := chunk_of s.remaining
    match e.rand s.rand_calls with
    | none =>
        Step.fail Status.rngError
          { s with rand_calls := s.rand_calls + 1,
                   released := s.released ++ [secure_memzero s.buffer BUFFER_SIZE],
                   closed := s.closed ++ [Handle.pad] }
    | some g =>
        let bytes := (List.range chunk).map (fun i => g i % 256)
        let buffer1 := store s.buffer bytes
        let buffer2 := remap_loop chunk 0 buffer1
        let w := fwrite e s.pad (buffer2.take chunk)
        if w.2 ≠ chunk then
          Step.fail Status.writeError
            { s with buffer := buffer2, pad := w.1, rand_calls := s.rand_calls + 1,
                     rand_log := s.rand_log ++ [bytes],
                     released := s.released ++ [secure_memzero buffer2 BUFFER_SIZE],
                     closed := s.closed ++ [Handle.pad] }
        else
          Step.next
            { s with remaining := s.remaining - chunk, buffer := buffer2, pad := w.1,
                     rand_calls := s.rand_calls + 1, rand_log := s.rand_log ++ [bytes] }
  else
    Step.done s

/-- The generation loop, run until it leaves through the loop test or an `exit`. -/
def gen_loop (e : Env) (s : GenState) : Status × GenState :=
  match h : gen_body e s with
  | Step.next s' => gen_loop e s'
  | Step.done s' => (Status.success, s')
  | Step.fail st s' => (st, s')
termination_by s.remaining
decreasing_by
  have key : ∀ t, gen_body e s = Step.next t → t.remaining < s.remaining := by
    intro t ht
    unfold gen_body at ht
    by_cases hpos : s.remaining > 0
    · rw [if_pos hpos] at ht
      cases hr : e.rand s.rand_calls with
      | none => rw [hr] at ht; cases ht
      | some g =>
          rw [hr] at ht
          dsimp only at ht
          split at ht
          · cases ht
          · injection ht with ht
            subst ht
            have hb : 0 < BUFFER_SIZE := by decide
            show s.remaining - chunk_of s.remaining < s.remaining
            unfold chunk_of
            split <;> omega
    · rw [if_neg hpos] at ht
      cases ht
  exact key _ h

/-- Function `generate_random_pad(pad_file, length)` of version 1.2. -/
def generate_random_pad (e : Env) (fs : Files) (pad_file : String) (length : Nat) : Outcome :=
  if length < MIN_PAD_SIZE then
    { status := Status.invalidLength, files := fs, fopens := 0, mallocs := 0, rand_calls := 0,
      released := [], closed := [], input_read := 0, pad_read := 0, rand_log := [] }
  else if ¬ e.can_create pad_file then
    { status := Status.openError, files := fs, fopens := 1, mallocs := 0, rand_calls := 0,
      released := [], closed := [], input_read := 0, pad_read := 0, rand_log := [] }
  else
    let fs1 := fs.write pad_file []
    match malloc e 0 BUFFER_SIZE with
    | none =>
        { status := Status.allocError, files := fs1, fopens := 1, mallocs := 1, rand_calls := 0,
          released := [], closed := [Handle.pad], input_read := 0, pad_read := 0, rand_log := [] }
    | some buffer =>
        let r := gen_loop e
          { remaining := length, buffer := buffer, pad := [], rand_calls := 0, rand_log := [],
            released := [], closed := [] }
        match r.1 with
        | Status.success =>
            { status := Status.success, files := fs1.write pad_file r.2.pad,
              fopens := 1, mallocs := 1, rand_calls := r.2.rand_calls,
              released := r.2.released ++ [secure_memzero r.2.buffer BUFFER_SIZE],
              closed := r.2.closed ++ [Handle.pad], input_read := 0, pad_read := 0,
              rand_log := r.2.rand_log }
        | st =>
            { status := st, files := fs1.write pad_file r.2.pad,
              fopens := 1, mallocs := 1, rand_calls := r.2.rand_calls,
              released := r.2.released, closed := r.2.closed, input_read := 0, pad_read := 0,
              rand_log := r.2.rand_log }

/-- Loop `for (i = 0; i < input_size; i++) input_buffer[i] ^= pad_buffer[i];` with `k`
iterations left and loop variable `i`. -/
def xor_loop (pad_buffer : List Nat) : Nat → Nat → List Nat → List Nat
  | 0, _, input_buffer => input_buffer
  | k + 1, i, input_buffer =>
      xor_loop pad_buffer k (i + 1)
        (input_buffer.set i (((input_buffer.getD i 0) ^^^ (pad_buffer.getD i 0)) % 256))

/-- State of `process_file` once the streams are open and the buffers allocated. -/
structure ProcState where
  input : RStream
  pad : RStream
  output : List Nat
  input_buffer : List Nat
  pad_buffer : List Nat
  released : List (List Nat)
  closed : List Handle

/-- The state in which `process_file` enters its loop: both streams at their
start, nothing written, the two buffers as `malloc` returned them. -/
def ProcState.start (input pad input_buffer pad_buffer : List Nat) : ProcState :=
  { input := ⟨input, 0⟩, pad := ⟨pad, 0⟩, output := [], input_buffer := input_buffer,
    pad_buffer := pad_buffer, released := [], closed := [] }

/-- The cleanup sequence written out on each exit of `process_file` after the
allocations: wipe both buffers, free them, close the three streams. -/
def wipe_and_close (s : ProcState) : ProcState :=
  { s with
    released := s.released ++
      [secure_memzero s.input_buffer BUFFER_SIZE, secure_memzero s.pad_buffer BUFFER_SIZE],
    closed := s.closed ++ [Handle.input, Handle.pad, Handle.output] }

/-- One evaluation of the loop condition `(input_size = fread(...)) > 0` followed
by the loop body (lines 145-178). -/
def loop_body (e : Env) (s : ProcState) : Step ProcState :=
  let r := fread s.input BUFFER_SIZE
  let input_size := r.1.length
  let s1 := { s with input := r.2, input_buffer := store s.input_buffer r.1 }
  if input_size > 0 then
    let q := fread s1.pad input_size
    let pad_size := q.1.length
    let s2 := { s1 with pad := q.2, pad_buffer := store s1.pad_buffer q.1 }
    if pad_size ≠ input_size then
      Step.fail Status.padExhausted (wipe_and_close s2)
    else
      let s3 := { s2 with input_buffer := xor_loop s2.pad_buffer input_size 0 s2.input_buffer }
      let w := fwrite e s3.output (s3.input_buffer.take input_size)
      let s4 := { s3 with output := w.1 }
      if w.2 ≠ input_size then
        Step.fail Status.writeError (wipe_and_close s4)
      else
        Step.next s4
  else
    Step.done s1

/-- The processing loop, run until it leaves through the loop test or an `exit`. -/
def process_loop (e : Env) (s : ProcState) : Status × ProcState :=
  match h : loop_body e s with
  | Step.next s' => process_loop e s'
  | Step.done s' => (Status.success, s')
  | Step.fail st s' => (st, s')
termination_by s.input.data.length - s.input.pos
decreasing_by
  have key : ∀ t, loop_body e s = Step.next t →
      t.input.data.length - t.input.pos < s.input.data.length - s.input.pos := by
    intro t ht
    unfold loop_body at ht
    dsimp only at ht
    by_cases hpos : (fread s.input BUFFER_SIZE).1.length > 0
    · rw [if_pos hpos] at ht
      split at ht
      · cases ht
      · split at ht
        · cases ht
        · injection ht with ht
          subst ht
          simp only [fread, List.length_take, List.length_drop] at hpos ⊢
          omega
    · rw [if_neg hpos] at ht
      cases ht
  exact key _ h

/-- Function `process_file(input_file, pad_file, output_file, encrypt)` of version 1.2.
The read streams deliver the bytes their files hold after the output file was
truncated: the truncation precedes every read. -/
def process_file (e : Env) (fs : Files) (input_file pad_file output_file : String)
    (_encrypt : Int) : Outcome :=
  let input := (fs input_file).isSome
  let pad := (fs pad_file).isSome
  let output := e.can_create output_file
  let fs1 := if output then fs.write output_file [] else fs
  if !input || !pad || !output then
    { status := Status.openError, files := fs1, fopens := 3, mallocs := 0, rand_calls := 0,
      released := [],
      closed := (if input then [Handle.input] else []) ++ (if pad then [Handle.pad] else []) ++
        (if output then [Handle.output] else []),
      input_read := 0, pad_read := 0, rand_log := [] }
  else
    match malloc e 0 BUFFER_SIZE, malloc e 1 BUFFER_SIZE with
    | some input_buffer, some pad_buffer =>
        let r := process_loop e
          (ProcState.start ((fs1 input_file).getD []) ((fs1 pad_file).getD [])
            input_buffer pad_buffer)
        let s := match r.1 with
          | Status.success => wipe_and_close r.2
          | _ => r.2
        { status := r.1, files := fs1.write output_file s.output, fopens := 3, mallocs := 2,
          rand_calls := 0, released := s.released, closed := s.closed,
          input_read := s.input.pos, pad_read := s.pad.pos, rand_log := [] }
    | input_buffer, pad_buffer =>
        { status := Status.allocError, files := fs1, fopens := 3, mallocs := 2, rand_calls := 0,
          released := input_buffer.toList ++ pad_buffer.toList,
          closed := [Handle.input, Handle.pad, Handle.output],
          input_read := 0, pad_read := 0, rand_log := [] }

/-- Value `EXIT_SUCCESS` of `<stdlib.h>`. -/
def EXIT_SUCCESS : Nat := 0

/-- Value `EXIT_FAILURE` of `<stdlib.h>`. -/
def EXIT_FAILURE : Nat := 1

/-- What `main` calls: one of the two operations with its arguments, or neither
(the usage text is printed). -/
inductive Invocation
  | generate (pad_file : String) (length : Nat)
  | process (input_file pad_file output_file : String) (encrypt : Int)
  | usage
  deriving DecidableEq

/-- What a run of the program did: the call `main` made, the outcome of that
call (`none` when no call was made), the file system left behind and the exit
status of the process. -/
structure MainResult where
  invoked : Invocation
  outcome : Option Outcome
  files : Files
  exit_code : Nat

/-- The end of the process after a call: `main` returns `EXIT_SUCCESS` when the
call returned, and the process has ended with `EXIT_FAILURE` when it took one of
its `exit(EXIT_FAILURE)` sites. -/
def after_call (inv : Invocation) (o : Outcome) : MainResult :=
  { invoked := inv, outcome := some o, files := o.files,
    exit_code := if o.status = Status.success then EXIT_SUCCESS else EXIT_FAILURE }

/-- Function `main(argc, argv)` of version 1.2, with `argc` the length of `argv`
and `strcmp(argv[1], s) == 0` equality of the strings. -/
def main (e : Env) (fs : Files) (argv : List String) : MainResult :=
  let argc := argv.length
  if argc = 3 ∧ argv.getD 1 "" = "-g" then
    after_call (Invocation.generate (argv.getD 2 "") PAD_SIZE)
      (generate_random_pad e fs (argv.getD 2 "") PAD_SIZE)
  else if argc = 5 ∧ argv.getD 1 "" = "-e" then
    after_call (Invocation.process (argv.getD 2 "") (argv.getD 3 "") (argv.getD 4 "") 1)
      (process_file e fs (argv.getD 2 "") (argv.getD 3 "") (argv.getD 4 "") 1)
  else if argc = 5 ∧ argv.getD 1 "" = "-d" then
    after_call (Invocation.process (argv.getD 2 "") (argv.getD 3 "") (argv.getD 4 "") 0)
      (process_file e fs (argv.getD 2 "") (argv.getD 3 "") (argv.getD 4 "") 0)
  else
    { invoked := Invocation.usage, outcome := none, files := fs, exit_code := EXIT_FAILURE }

end V12

namespace V11

/-- Loop `for (i = 0; i < length; i++) fputc((buffer[i] % 95) + 32, pad);` with `k`
iterations left and loop variable `i`; the result of `fputc` is not checked. -/
def fputc_loop (e : Env) (buffer : List Nat) : Nat → Nat → List Nat → List Nat
  | 0, _, pad => pad
  | k + 1, i, pad =>
      fputc_loop e buffer k (i + 1) (fwrite e pad [((buffer.getD i 0) % 95 + 32) % 256]).1

/-- Function `generate_random_pad(pad_file, length)` of version 1.1; `buffer` is a
variable-length array, so nothing is allocated with `malloc`. -/
def generate_random_pad (e : Env) (fs : Files) (pad_file : String) (length : Nat) : Outcome :=
  if ¬ e.can_create pad_file then
    { status := Status.openError, files := fs, fopens := 1, mallocs := 0, rand_calls := 0,
      released := [], closed := [], input_read := 0, pad_read := 0, rand_log := [] }
  else
    let fs1 := fs.write pad_file []
    match e.rand 0 with
    | none =>
        { status := Status.rngError, files := fs1, fopens := 1, mallocs := 0, rand_calls := 1,
          released := [], closed := [Handle.pad], input_read := 0, pad_read := 0, rand_log := [] }
    | some g =>
        let buffer := (List.range length).map (fun i => g i % 256)
        { status := Status.success,
          files := fs1.write pad_file (fputc_loop e buffer length 0 []),
          fopens := 1, mallocs := 0, rand_calls := 1,
          released := [], closed := [Handle.pad], input_read := 0, pad_read := 0,
          rand_log := [buffer] }

/-- State of the character loop of `process_file` (version 1.1): the bytes
written to the output and the number of characters taken from each stream. -/
structure CharState where
  output : List Nat
  input_read : Nat
  pad_read : Nat

/-- Loop `while ((input_char = fgetc(input)) != EOF && (pad_char = fgetc(pad)) != EOF)
fputc(encrypt ? (input_char ^ pad_char) : (input_char ^ pad_char), output);` on the
unread bytes of the input and of the pad.  When `fgetc(input)` is `EOF` the pad
is not read; the result of `fputc` is not checked. -/
def char_loop (e : Env) (encrypt : Int) : List Nat → List Nat → CharState → CharState
  | [], _, s => s
  | _ :: _, [], s => { s with input_read := s.input_read + 1 }
  | input_char :: input, pad_char :: pad, s =>
      char_loop e encrypt input pad
        { output := (fwrite e s.output
            [(if encrypt ≠ 0 then input_char ^^^ pad_char else input_char ^^^ pad_char) % 256]).1,
          input_read := s.input_read + 1, pad_read := s.pad_read + 1 }

/-- Function `process_file(input_file, pad_file, output_file, encrypt)` of version 1.1.
When an open fails the process exits without closing anything; otherwise the
call returns normally whatever the loop met.  The files are opened in text mode,
which is the binary mode on the systems modelled here. -/
def process_file (e : Env) (fs : Files) (input_file pad_file output_file : String)
    (encrypt : Int) : Outcome :=
  let input := (fs input_file).isSome
  let pad := (fs pad_file).isSome
  let output := e.can_create output_file
  let fs1 := if output then fs.write output_file [] else fs
  if !input || !pad || !output then
    { status := Status.openError, files := fs1, fopens := 3, mallocs := 0, rand_calls := 0,
      released := [], closed := [], input_read := 0, pad_read := 0, rand_log := [] }
  else
    let s := char_loop e encrypt ((fs1 input_file).getD []) ((fs1 pad_file).getD [])
      { output := [], input_read := 0, pad_read := 0 }
    { status := Status.success, files := fs1.write output_file s.output, fopens := 3,
      mallocs := 0, rand_calls := 0, released := [],
      closed := [Handle.input, Handle.pad, Handle.output],
      input_read := s.input_read, pad_read := s.pad_read, rand_log := [] }

end V11

/-! ## Specification vocabulary -/

/-- A list of bytes: every element is below 256. -/
def IsBytes (l : List Nat) : Prop := ∀ b ∈ l, b < 256

instance (l : List Nat) : Decidable (IsBytes l) := by
  unfold IsBytes
  infer_instance

/-- Every byte of the list is a printable character, from 32 to 126. -/
def Printable (l : List Nat) : Prop := ∀ b ∈ l, 32 ≤ b ∧ b ≤ 126

/-- Byte-wise XOR of two byte sequences, each result stored into an `unsigned char`. -/
def xorBytes (P Q : List Nat) : List Nat :=
  List.zipWith (fun a b => (a ^^^ b) % 256) P Q

/-- The wiped buffer: `BUFFER_SIZE` zero bytes. -/
def zeroBuffer : List Nat := List.replicate BUFFER_SIZE 0

/-- Index loop `for (; k--; i++) b[i] = f i b[i]`, the common shape of the three
byte loops of the program. -/
def updRange (f : Nat → Nat → Nat) : Nat → Nat → List Nat → List Nat
  | 0, _, b => b
  | k + 1, i, b => updRange f k (i + 1) (b.set i (f i (b.getD i 0)))

/-- Every `fwrite` and `fputc` of the call writes all the bytes it is given. -/
def Env.writesComplete (e : Env) : Prop := ∀ off n, n ≤ e.fwrite_ret off n

namespace V12

/-- The bytes of the input not yet read. -/
def ProcState.restIn (s : ProcState) : List Nat := s.input.data.drop s.input.pos

/-- The bytes of the pad not yet read. -/
def ProcState.restPad (s : ProcState) : List Nat := s.pad.data.drop s.pad.pos

/-- The chunk the next `fread` on the input delivers. -/
def ProcState.chunkIn (s : ProcState) : List Nat := s.restIn.take BUFFER_SIZE

/-- The chunk the matching `fread` on the pad delivers. -/
def ProcState.chunkPad (s : ProcState) : List Nat := s.restPad.take s.chunkIn.length

/-- The state after both reads of an iteration. -/
def ProcState.afterReads (s : ProcState) : ProcState :=
  { s with input := ⟨s.input.data, s.input.pos + s.chunkIn.length⟩,
           input_buffer := store s.input_buffer s.chunkIn,
           pad := ⟨s.pad.data, s.pad.pos + s.chunkPad.length⟩,
           pad_buffer := store s.pad_buffer s.chunkPad }

/-- The state after the XOR loop of an iteration. -/
def ProcState.afterXor (s : ProcState) : ProcState :=
  { s.afterReads with
    input_buffer := xorBytes s.chunkIn s.chunkPad ++ s.input_buffer.drop s.chunkIn.length }

/-- The state after a complete write of the chunk. -/
def ProcState.afterWrite (s : ProcState) : ProcState :=
  { s.afterXor with output := s.output ++ xorBytes s.chunkIn s.chunkPad }

/-- The state after a write that accepted only `k` bytes of the chunk. -/
def ProcState.afterShortWrite (s : ProcState) (k : Nat) : ProcState :=
  { s.afterXor with output := s.output ++ (xorBytes s.chunkIn s.chunkPad).take k }

/-- The states in which the loop of `process_file`, entered in `s0`, evaluates its
condition: `s0` itself, and every state a completed iteration leaves. -/
inductive IterStart (e : Env) (s0 : ProcState) : ProcState → Prop
  | first : IterStart e s0 s0
  | step {s t : ProcState} : IterStart e s0 s → loop_body e s = Step.next t → IterStart e s0 t

/-- Nothing in the environment of a `process_file` call fails: the output file
can be created, both buffers are allocated and every write is complete. -/
def NoFault (e : Env) (output_file : String) : Prop :=
  e.can_create output_file = true ∧ (e.heap 0).isSome = true ∧ (e.heap 1).isSome = true ∧
    e.writesComplete

/-- The outcome `process_file` builds from the result of its loop. -/
def finish (fs1 : Files) (output_file : String) (r : Status × ProcState) : Outcome :=
  let s := match r.1 with
    | Status.success => wipe_and_close r.2
    | _ => r.2
  { status := r.1, files := fs1.write output_file s.output, fopens := 3, mallocs := 2,
    rand_calls := 0, released := s.released, closed := s.closed,
    input_read := s.input.pos, pad_read := s.pad.pos, rand_log := [] }

end V12

namespace V12

/-- The chunk of `n` bytes a successful `RAND_bytes` call with byte source `g`
leaves in the buffer. -/
def randChunk (g : Nat → Nat) (n : Nat) : List Nat :=
  (List.range n).map (fun i => g i % 256)

/-- The remap of raw bytes into the printable range, byte by byte. -/
def remapBytes (l : List Nat) : List Nat := l.map (fun b => b % 95 + 32)

/-- The state after the `RAND_bytes` call delivered from `g`, the remap, and a
write that accepted `k` bytes. -/
def GenState.afterChunk (s : GenState) (g : Nat → Nat) (k : Nat) : GenState :=
  { s with
    buffer := remapBytes (randChunk g (chunk_of s.remaining))
      ++ s.buffer.drop (chunk_of s.remaining),
    pad := s.pad ++ (remapBytes (randChunk g (chunk_of s.remaining))).take k,
    rand_calls := s.rand_calls + 1,
    rand_log := s.rand_log ++ [randChunk g (chunk_of s.remaining)] }

/-- The state at the end of a completed iteration of the generation loop. -/
def GenState.afterIter (s : GenState) (g : Nat → Nat) : GenState :=
  { s.afterChunk g (chunk_of s.remaining) with
    remaining := s.remaining - chunk_of s.remaining }

/-- The exit taken when `RAND_bytes` fails. -/
def GenState.rngExit (s : GenState) : GenState :=
  { s with rand_calls := s.rand_calls + 1,
           released := s.released ++ [secure_memzero s.buffer BUFFER_SIZE],
           closed := s.closed ++ [Handle.pad] }

/-- The exit taken when the write of the chunk accepted only `k` bytes. -/
def GenState.writeExit (s : GenState) (g : Nat → Nat) (k : Nat) : GenState :=
  { s.afterChunk g k with
    released := s.released ++ [secure_memzero (s.afterChunk g k).buffer BUFFER_SIZE],
    closed := s.closed ++ [Handle.pad] }

/-- The state in which `generate_random_pad` enters its loop. -/
def genStart (length : Nat) (buffer : List Nat) : GenState :=
  { remaining := length, buffer := buffer, pad := [], rand_calls := 0, rand_log := [],
    released := [], closed := [] }

/-- The outcome `generate_random_pad` builds from the result of its loop. -/
def genFinish (fs1 : Files) (pad_file : String) (r : Status × GenState) : Outcome :=
  match r.1 with
  | Status.success =>
      { status := Status.success, files := fs1.write pad_file r.2.pad,
        fopens := 1, mallocs := 1, rand_calls := r.2.rand_calls,
        released := r.2.released ++ [secure_memzero r.2.buffer BUFFER_SIZE],
        closed := r.2.closed ++ [Handle.pad], input_read := 0, pad_read := 0,
        rand_log := r.2.rand_log }
  | st =>
      { status := st, files := fs1.write pad_file r.2.pad,
        fopens := 1, mallocs := 1, rand_calls := r.2.rand_calls,
        released := r.2.released, closed := r.2.closed, input_read := 0, pad_read := 0,
        rand_log := r.2.rand_log }

/-- The log of random chunks agrees with the environment: its `k`-th entry is
what the `k`-th `RAND_bytes` call delivered. -/
def LogSound (e : Env) (s : GenState) : Prop :=
  s.rand_log.length = s.rand_calls ∧
  ∀ k (hk : k < s.rand_log.length), ∃ g, e.rand k = some g ∧
    s.rand_log[k] = randChunk g (s.rand_log[k]).length

/-- Nothing in the environment of a `generate_random_pad` call fails: the pad
file can be created, the buffer is allocated, every `RAND_bytes` call succeeds
and every write is complete. -/
def GenNoFault (e : Env) (pad_file : String) : Prop :=
  e.can_create pad_file = true ∧ (e.heap 0).isSome = true ∧ (∀ k, (e.rand k).isSome = true) ∧
    e.writesComplete

end V12

/-- The raw byte values, out of the 256, that the remap of `generate_random_pad`
sends to `v`. -/
def preimages (v : Nat) : List Nat :=
  (List.range 256).filter (fun b => V12.remapBytes [b] = [v])

/-! ## Concrete inputs -/

/-- An environment in which nothing fails: every file can be created, every
allocation returns a block filled with the byte 0xAA, every write is complete,
and the `k`-th random chunk holds the bytes `k, k + 1, ...` (modulo 256). -/
def calmEnv : Env :=
  { can_create := fun _ => true
    heap := fun _ => some (fun _ => 170)
    fwrite_ret := fun _ n => n
    rand := fun k => some (fun i => k + i) }

/-- An environment like `calmEnv` except that the second allocation fails. -/
def stingyEnv : Env :=
  { calmEnv with heap := fun k => if k = 0 then some (fun _ => 170) else none }

/-- The ten bytes of "HelloWorld". -/
def helloWorld : List Nat := [72, 101, 108, 108, 111, 87, 111, 114, 108, 100]

/-- A pad of 1024 bytes of the printable alphabet. -/
def pad1024 : List Nat := List.replicate 1024 90

/-- An input of 5000 bytes: one full chunk and a partial one. -/
def input5000 : List Nat := List.replicate 5000 7

/-- A pad of 6000 bytes. -/
def pad6000 : List Nat := List.replicate 6000 90

/-- An input of twenty bytes. -/
def input20 : List Nat := List.replicate 20 7

/-- A pad of ten bytes. -/
def pad10 : List Nat := [65, 66, 67, 68, 69, 70, 71, 72, 73, 74]

/-- A file system holding "HelloWorld" in `plain`, the 1024-byte pad in `pad`,
the 5000-byte input in `big`, the 6000-byte pad in `bigpad`, the twenty-byte
input in `twenty`, the ten-byte pad in `short` and an empty file in `empty`. -/
def demoFiles : Files := fun p =>
  if p = "plain" then some helloWorld
  else if p = "pad" then some pad1024
  else if p = "big" then some input5000
  else if p = "bigpad" then some pad6000
  else if p = "twenty" then some input20
  else if p = "short" then some pad10
  else if p = "empty" then some []
  else none

/-! ## The byte loops -/

theorem updRange_length (f : Nat → Nat → Nat) (k i : Nat) (b : List Nat) :
    (updRange f k i b).length = b.length := by
  induction k generalizing i b with
  | zero => rfl
  | succ k ih => simp [updRange, ih]

theorem updRange_getElem? (f : Nat → Nat → Nat) (k i : Nat) (b : List Nat) (j : Nat) :
    (updRange f k i b)[j]? = if i ≤ j ∧ j < i + k then (b[j]?).map (f j) else b[j]? := by
  induction k generalizing i b with
  | zero =>
      have : ¬ (i ≤ j ∧ j < i + 0) := by omega
      rw [if_neg this, updRange]
  | succ k ih =>
      rw [updRange, ih, List.getElem?_set]
      by_cases hij : i = j
      · subst hij
        have h1 : ¬ (i + 1 ≤ i ∧ i < i + 1 + k) := by omega
        have h2 : i ≤ i ∧ i < i + (k + 1) := by omega
        rw [if_neg h1, if_pos h2, if_pos rfl]
        by_cases hlen : i < b.length
        · simp [hlen, List.getD_eq_getElem?_getD]
        · have hn : b[i]? = none := List.getElem?_eq_none (by omega)
          simp [hlen, hn]
      · rw [if_neg hij]
        by_cases h1 : i + 1 ≤ j ∧ j < i + 1 + k
        · have h2 : i ≤ j ∧ j < i + (k + 1) := by omega
          rw [if_pos h1, if_pos h2]
        · have h2 : ¬ (i ≤ j ∧ j < i + (k + 1)) := by omega
          rw [if_neg h1, if_neg h2]

theorem secure_memzero_loop_eq (n p : Nat) (v : List Nat) :
    secure_memzero_loop n p v = updRange (fun _ _ => 0) n p v := by
  induction n generalizing p v with
  | zero => rfl
  | succ n ih => simp [secure_memzero_loop, updRange, ih]

theorem V12.remap_loop_eq (k i : Nat) (b : List Nat) :
    V12.remap_loop k i b = updRange (fun _ x => (x % 95 + 32) % 256) k i b := by
  induction k generalizing i b with
  | zero => rfl
  | succ n ih => simp [V12.remap_loop, updRange, ih]

theorem V12.xor_loop_eq (pad : List Nat) (k i : Nat) (b : List Nat) :
    V12.xor_loop pad k i b = updRange (fun j x => (x ^^^ pad.getD j 0) % 256) k i b := by
  induction k generalizing i b with
  | zero => rfl
  | succ n ih => simp [V12.xor_loop, updRange, ih]

theorem secure_memzero_full (v : List Nat) :
    secure_memzero v v.length = List.replicate v.length 0 := by
  apply List.ext_getElem?
  intro j
  rw [secure_memzero, secure_memzero_loop_eq, updRange_getElem?]
  by_cases hj : j < v.length
  · have : 0 ≤ j ∧ j < 0 + v.length := by omega
    simp [this, hj, List.getElem?_replicate]
  · have : ¬ (0 ≤ j ∧ j < 0 + v.length) := by omega
    simp [this, hj, List.getElem?_replicate]
    omega


theorem V12.xor_loop_store (inb pb rest rest' : List Nat) (hlen : pb.length = inb.length) :
    V12.xor_loop (pb ++ rest') inb.length 0 (inb ++ rest) = xorBytes inb pb ++ rest := by
  apply List.ext_getElem?
  intro j
  rw [V12.xor_loop_eq, updRange_getElem?]
  by_cases hj : j < inb.length
  · have h1 : 0 ≤ j ∧ j < 0 + inb.length := by omega
    have hj' : j < pb.length := by omega
    have h2 : j < (xorBytes inb pb).length := by simp [xorBytes, hlen, hj]
    rw [if_pos h1, List.getElem?_append_left hj, List.getElem?_append_left h2]
    simp [xorBytes, List.getElem?_zipWith, List.getD_eq_getElem?_getD, List.getElem?_append_left hj',
      List.getElem?_eq_getElem hj, List.getElem?_eq_getElem hj']
  · have h1 : ¬ (0 ≤ j ∧ j < 0 + inb.length) := by omega
    have h2 : (xorBytes inb pb).length = inb.length := by simp [xorBytes, hlen]
    rw [if_neg h1, List.getElem?_append_right (by omega), List.getElem?_append_right (by omega), h2]

theorem V12.process_loop_next {e : Env} {s t : V12.ProcState} (h : V12.loop_body e s = V12.Step.next t) :
    V12.process_loop e s = V12.process_loop e t := by
  rw [V12.process_loop]
  split <;> simp_all

theorem V12.process_loop_done {e : Env} {s t : V12.ProcState} (h : V12.loop_body e s = V12.Step.done t) :
    V12.process_loop e s = (Status.success, t) := by
  rw [V12.process_loop]
  split <;> simp_all

theorem V12.process_loop_fail {e : Env} {s t : V12.ProcState} {st : Status}
    (h : V12.loop_body e s = V12.Step.fail st t) :
    V12.process_loop e s = (st, t) := by
  rw [V12.process_loop]
  split <;> simp_all


namespace V12

theorem loop_body_eq (e : Env) (s : ProcState) :
    loop_body e s =
      if s.chunkIn.length > 0 then
        if s.chunkPad.length ≠ s.chunkIn.length then
          Step.fail Status.padExhausted (wipe_and_close s.afterReads)
        else
          let buf := xor_loop (store s.pad_buffer s.chunkPad) s.chunkIn.length 0
            (store s.input_buffer s.chunkIn)
          let w := fwrite e s.output (buf.take s.chunkIn.length)
          if w.2 ≠ s.chunkIn.length then
            Step.fail Status.writeError
              (wipe_and_close { s.afterReads with input_buffer := buf, output := w.1 })
          else
            Step.next { s.afterReads with input_buffer := buf, output := w.1 }
      else
        Step.done { s with input := ⟨s.input.data, s.input.pos + s.chunkIn.length⟩,
                           input_buffer := store s.input_buffer s.chunkIn } := rfl

theorem chunkIn_length_pos {s : ProcState} (h : s.restIn ≠ []) : 0 < s.chunkIn.length := by
  have h0 : 0 < s.restIn.length := List.length_pos.mpr h
  have hb : 0 < BUFFER_SIZE := by decide
  rw [ProcState.chunkIn, List.length_take]
  omega

theorem loop_body_done {e : Env} {s : ProcState} (h : s.restIn = []) :
    loop_body e s = Step.done s := by
  have h1 : s.chunkIn = [] := by rw [ProcState.chunkIn, h, List.take_nil]
  rw [loop_body_eq, h1]
  simp [store]

theorem loop_body_short {e : Env} {s : ProcState} (h : s.restIn ≠ [])
    (hp : s.restPad.length < s.chunkIn.length) :
    loop_body e s = Step.fail Status.padExhausted (wipe_and_close s.afterReads) := by
  have h1 : s.chunkIn.length > 0 := chunkIn_length_pos h
  have h2 : s.chunkPad.length ≠ s.chunkIn.length := by
    rw [ProcState.chunkPad, List.length_take]
    omega
  rw [loop_body_eq, if_pos h1, if_pos h2]

theorem xor_buffer_eq (s : ProcState) (h2 : s.chunkPad.length = s.chunkIn.length) :
    xor_loop (store s.pad_buffer s.chunkPad) s.chunkIn.length 0 (store s.input_buffer s.chunkIn)
      = xorBytes s.chunkIn s.chunkPad ++ s.input_buffer.drop s.chunkIn.length := by
  rw [store, store, xor_loop_store _ _ _ _ h2]

theorem loop_body_next {e : Env} {s : ProcState} (h : s.restIn ≠ [])
    (hp : s.chunkIn.length ≤ s.restPad.length)
    (hw : s.chunkIn.length ≤ e.fwrite_ret s.output.length s.chunkIn.length) :
    loop_body e s = Step.next s.afterWrite := by
  have h1 : s.chunkIn.length > 0 := chunkIn_length_pos h
  have h2 : s.chunkPad.length = s.chunkIn.length := by
    rw [ProcState.chunkPad, List.length_take]
    omega
  have h3 : (xorBytes s.chunkIn s.chunkPad).length = s.chunkIn.length := by
    simp [xorBytes, h2]
  have h7 : List.take s.chunkIn.length (xorBytes s.chunkIn s.chunkPad)
      = xorBytes s.chunkIn s.chunkPad := List.take_of_length_le (Nat.le_of_eq h3)
  have h4 : List.take s.chunkIn.length
      (xorBytes s.chunkIn s.chunkPad ++ s.input_buffer.drop s.chunkIn.length)
      = xorBytes s.chunkIn s.chunkPad := by
    rw [List.take_append_eq_append_take, h3, Nat.sub_self, List.take_zero, List.append_nil, h7]
  rw [loop_body_eq, if_pos h1, if_neg (not_not.mpr h2)]
  simp only [xor_buffer_eq s h2, h4, fwrite, h3, Nat.min_eq_left hw, ne_eq, not_true_eq_false,
    if_false, h7]
  rfl

theorem loop_body_wfail {e : Env} {s : ProcState} (h : s.restIn ≠ [])
    (hp : s.chunkIn.length ≤ s.restPad.length)
    (hw : e.fwrite_ret s.output.length s.chunkIn.length < s.chunkIn.length) :
    loop_body e s = Step.fail Status.writeError
      (wipe_and_close (s.afterShortWrite (e.fwrite_ret s.output.length s.chunkIn.length))) := by
  have h1 : s.chunkIn.length > 0 := chunkIn_length_pos h
  have h2 : s.chunkPad.length = s.chunkIn.length := by
    rw [ProcState.chunkPad, List.length_take]
    omega
  have h3 : (xorBytes s.chunkIn s.chunkPad).length = s.chunkIn.length := by
    simp [xorBytes, h2]
  have h7 : List.take s.chunkIn.length (xorBytes s.chunkIn s.chunkPad)
      = xorBytes s.chunkIn s.chunkPad := List.take_of_length_le (Nat.le_of_eq h3)
  have h4 : List.take s.chunkIn.length
      (xorBytes s.chunkIn s.chunkPad ++ s.input_buffer.drop s.chunkIn.length)
      = xorBytes s.chunkIn s.chunkPad := by
    rw [List.take_append_eq_append_take, h3, Nat.sub_self, List.take_zero, List.append_nil, h7]
  have h5 : min s.chunkIn.length (e.fwrite_ret s.output.length s.chunkIn.length)
      = e.fwrite_ret s.output.length s.chunkIn.length := Nat.min_eq_right (Nat.le_of_lt hw)
  have h6 : e.fwrite_ret s.output.length s.chunkIn.length ≠ s.chunkIn.length := Nat.ne_of_lt hw
  rw [loop_body_eq, if_pos h1, if_neg (not_not.mpr h2)]
  simp only [xor_buffer_eq s h2, h4, fwrite, h3, h5, ne_eq, h6, not_false_eq_true, if_true]
  rfl


theorem take_take_length (B : Nat) (I : List Nat) : I.take (I.take B).length = I.take B := by
  rw [List.length_take]
  by_cases h : B ≤ I.length
  · rw [Nat.min_eq_left h]
  · rw [Nat.min_eq_right (by omega), List.take_of_length_le (Nat.le_refl _),
      List.take_of_length_le (by omega)]

theorem xorBytes_split (B : Nat) (I Q : List Nat) :
    xorBytes (I.take B) (Q.take (I.take B).length)
      ++ xorBytes (I.drop (I.take B).length) (Q.drop (I.take B).length) = xorBytes I Q := by
  have h : xorBytes (I.take B) (Q.take (I.take B).length)
      = xorBytes (I.take (I.take B).length) (Q.take (I.take B).length) := by
    rw [take_take_length]
  rw [h]
  unfold xorBytes
  rw [← List.take_zipWith, ← List.drop_zipWith, List.take_append_drop]

theorem chunkIn_length_le (s : ProcState) : s.chunkIn.length ≤ s.restIn.length := by
  rw [ProcState.chunkIn, List.length_take]; omega

theorem chunkIn_length_le_buffer (s : ProcState) : s.chunkIn.length ≤ BUFFER_SIZE := by
  rw [ProcState.chunkIn, List.length_take]; omega

theorem chunkPad_length_le (s : ProcState) : s.chunkPad.length ≤ s.chunkIn.length := by
  rw [ProcState.chunkPad, List.length_take]; omega

theorem chunkPad_length_eq {s : ProcState} (hp : s.chunkIn.length ≤ s.restPad.length) :
    s.chunkPad.length = s.chunkIn.length := by
  rw [ProcState.chunkPad, List.length_take]; omega

theorem restIn_afterWrite (s : ProcState) :
    s.afterWrite.restIn = s.restIn.drop s.chunkIn.length := by
  simp [ProcState.restIn, ProcState.afterWrite, ProcState.afterXor, ProcState.afterReads,
    List.drop_drop, Nat.add_comm]

theorem restPad_afterWrite (s : ProcState) :
    s.afterWrite.restPad = s.restPad.drop s.chunkPad.length := by
  simp [ProcState.restPad, ProcState.afterWrite, ProcState.afterXor, ProcState.afterReads,
    List.drop_drop, Nat.add_comm]

/-- Induction along the iterations of the processing loop, by the way an
iteration ends: at end of input, on a short pad read, on a short write, or by
going round again. -/
theorem process_loop_induct (e : Env) (motive : ProcState → Prop)
    (done : ∀ s, s.restIn = [] → loop_body e s = Step.done s → motive s)
    (short : ∀ s, s.restIn ≠ [] → s.restPad.length < s.chunkIn.length →
      loop_body e s = Step.fail Status.padExhausted (wipe_and_close s.afterReads) → motive s)
    (wfail : ∀ s, s.restIn ≠ [] → s.chunkIn.length ≤ s.restPad.length →
      e.fwrite_ret s.output.length s.chunkIn.length < s.chunkIn.length →
      loop_body e s = Step.fail Status.writeError
        (wipe_and_close (s.afterShortWrite (e.fwrite_ret s.output.length s.chunkIn.length))) →
      motive s)
    (next : ∀ s, s.restIn ≠ [] → s.chunkIn.length ≤ s.restPad.length →
      s.chunkIn.length ≤ e.fwrite_ret s.output.length s.chunkIn.length →
      loop_body e s = Step.next s.afterWrite → motive s.afterWrite → motive s) :
    ∀ s, motive s := by
  have main : ∀ (n : Nat) (s : ProcState), s.restIn.length = n → motive s := by
    intro n
    induction n using Nat.strong_induction_on with
    | _ n ih =>
      intro s hn
      by_cases h : s.restIn = []
      · exact done s h (loop_body_done h)
      · by_cases hp : s.chunkIn.length ≤ s.restPad.length
        · by_cases hw : s.chunkIn.length ≤ e.fwrite_ret s.output.length s.chunkIn.length
          · refine next s h hp hw (loop_body_next h hp hw) (ih s.afterWrite.restIn.length ?_ _ rfl)
            have hc : 0 < s.chunkIn.length := chunkIn_length_pos h
            have hcl := chunkIn_length_le s
            rw [restIn_afterWrite, List.length_drop]
            omega
          · exact wfail s h hp (by omega) (loop_body_wfail h hp (by omega))
        · exact short s h (by omega) (loop_body_short h (by omega))
  intro s
  exact main _ s rfl

/-- Whatever the environment does, a run of the loop that ends with success has
read the whole input rest, as many pad bytes, left the output extended by the
XOR of the two, and the pad was long enough. -/
theorem process_loop_success (e : Env) (s : ProcState)
    (hs : (process_loop e s).1 = Status.success) :
    s.restIn.length ≤ s.restPad.length ∧
    (process_loop e s).2.output = s.output ++ xorBytes s.restIn s.restPad ∧
    (process_loop e s).2.input.pos = s.input.pos + s.restIn.length ∧
    (process_loop e s).2.pad.pos = s.pad.pos + s.restIn.length ∧
    (process_loop e s).2.released = s.released ∧
    (process_loop e s).2.closed = s.closed := by
  revert hs
  induction s using process_loop_induct e with
  | done s h hb =>
      intro _
      rw [process_loop_done hb]
      simp [h, xorBytes]
  | short s h hp hb =>
      intro hs
      rw [process_loop_fail hb] at hs
      cases hs
  | wfail s h hp hw hb =>
      intro hs
      rw [process_loop_fail hb] at hs
      cases hs
  | next s h hp hw hb ih =>
      intro hs
      rw [process_loop_next hb] at hs ⊢
      obtain ⟨h1, h2, h3, h4, h5, h6⟩ := ih hs
      have hpl := chunkPad_length_eq hp
      have hcl := chunkIn_length_le s
      rw [restIn_afterWrite, restPad_afterWrite, hpl] at h2
      rw [restIn_afterWrite, List.length_drop] at h1 h3 h4
      rw [restPad_afterWrite, hpl, List.length_drop] at h1
      refine ⟨by omega, ?_, ?_, ?_, h5, h6⟩
      · rw [h2]
        show (s.output ++ xorBytes s.chunkIn s.chunkPad) ++ _ = _
        rw [List.append_assoc]
        congr 1
        exact xorBytes_split BUFFER_SIZE s.restIn s.restPad
      · rw [h3]
        show s.input.pos + s.chunkIn.length + _ = _
        omega
      · rw [h4]
        show s.pad.pos + s.chunkPad.length + _ = _
        omega

/-- With every write complete, the loop ends with success exactly when the pad
rest covers the input rest, and with the pad-exhausted exit otherwise. -/
theorem process_loop_status (e : Env) (hw : e.writesComplete) (s : ProcState) :
    (process_loop e s).1 =
      if s.restIn.length ≤ s.restPad.length then Status.success else Status.padExhausted := by
  induction s using process_loop_induct e with
  | done s h hb =>
      rw [process_loop_done hb]
      simp [h]
  | short s h hp hb =>
      rw [process_loop_fail hb]
      have hcl := chunkIn_length_le s
      rw [if_neg (by omega)]
  | wfail s h hp hw' hb =>
      have := hw s.output.length s.chunkIn.length
      omega
  | next s h hp hw' hb ih =>
      rw [process_loop_next hb, ih, restIn_afterWrite, restPad_afterWrite, chunkPad_length_eq hp,
        List.length_drop, List.length_drop]
      have hcl := chunkIn_length_le s
      by_cases hle : s.restIn.length ≤ s.restPad.length
      · rw [if_pos hle, if_pos (by omega)]
      · rw [if_neg hle, if_neg (by omega)]

/-- Whatever the environment does, the loop never ends with success on a pad
rest shorter than the input rest. -/
theorem process_loop_short (e : Env) (s : ProcState) (h : s.restPad.length < s.restIn.length) :
    (process_loop e s).1 ≠ Status.success := by
  intro hs
  have := (process_loop_success e s hs).1
  omega

theorem store_length {buf bytes : List Nat} (h : bytes.length ≤ buf.length) :
    (store buf bytes).length = buf.length := by
  rw [store, List.length_append, List.length_drop]
  omega

theorem secure_memzero_buffer {v : List Nat} (h : v.length = BUFFER_SIZE) :
    secure_memzero v BUFFER_SIZE = zeroBuffer := by
  rw [← h, secure_memzero_full, zeroBuffer, h]

theorem afterReads_buffers {s : ProcState} (hi : s.input_buffer.length = BUFFER_SIZE)
    (hp : s.pad_buffer.length = BUFFER_SIZE) :
    s.afterReads.input_buffer.length = BUFFER_SIZE ∧
    s.afterReads.pad_buffer.length = BUFFER_SIZE := by
  have h1 := chunkIn_length_le_buffer s
  have h2 := chunkPad_length_le s
  constructor
  · show (store s.input_buffer s.chunkIn).length = BUFFER_SIZE
    rw [store_length (by omega), hi]
  · show (store s.pad_buffer s.chunkPad).length = BUFFER_SIZE
    rw [store_length (by omega), hp]

theorem afterXor_buffers {s : ProcState} (hi : s.input_buffer.length = BUFFER_SIZE)
    (hp : s.pad_buffer.length = BUFFER_SIZE) (hc : s.chunkPad.length = s.chunkIn.length) :
    s.afterXor.input_buffer.length = BUFFER_SIZE ∧
    s.afterXor.pad_buffer.length = BUFFER_SIZE := by
  have h1 := chunkIn_length_le_buffer s
  constructor
  · show (xorBytes s.chunkIn s.chunkPad ++ s.input_buffer.drop s.chunkIn.length).length
      = BUFFER_SIZE
    simp only [xorBytes, List.length_append, List.length_zipWith, List.length_drop, hc, hi]
    omega
  · exact (afterReads_buffers hi hp).2

theorem wipe_and_close_released {s : ProcState} (hi : s.input_buffer.length = BUFFER_SIZE)
    (hp : s.pad_buffer.length = BUFFER_SIZE) :
    (wipe_and_close s).released = s.released ++ [zeroBuffer, zeroBuffer] := by
  rw [wipe_and_close, secure_memzero_buffer hi, secure_memzero_buffer hp]

/-- Whatever the environment does, the two buffers keep their size through the
loop, and every failing exit of the loop wipes both before releasing them and
closes the three streams. -/
theorem process_loop_buffers (e : Env) (s : ProcState)
    (hi : s.input_buffer.length = BUFFER_SIZE) (hp : s.pad_buffer.length = BUFFER_SIZE) :
    ((process_loop e s).1 = Status.success →
      (process_loop e s).2.input_buffer.length = BUFFER_SIZE ∧
      (process_loop e s).2.pad_buffer.length = BUFFER_SIZE) ∧
    ((process_loop e s).1 ≠ Status.success →
      (process_loop e s).2.released = s.released ++ [zeroBuffer, zeroBuffer] ∧
      (process_loop e s).2.closed = s.closed ++ [Handle.input, Handle.pad, Handle.output]) := by
  revert hi hp
  induction s using process_loop_induct e with
  | done s h hb =>
      intro hi hp
      rw [process_loop_done hb]
      exact ⟨fun _ => ⟨hi, hp⟩, fun hne => absurd rfl hne⟩
  | short s h hp' hb =>
      intro hi hp
      rw [process_loop_fail hb]
      have hb := afterReads_buffers hi hp
      exact ⟨fun hs => (by cases hs), fun _ => ⟨wipe_and_close_released hb.1 hb.2, rfl⟩⟩
  | wfail s h hp' hw hb =>
      intro hi hp
      rw [process_loop_fail hb]
      have hb := afterXor_buffers hi hp (chunkPad_length_eq hp')
      exact ⟨fun hs => (by cases hs), fun _ => ⟨wipe_and_close_released hb.1 hb.2, rfl⟩⟩
  | next s h hp' hw hb ih =>
      intro hi hp
      rw [process_loop_next hb]
      have hb := afterXor_buffers hi hp (chunkPad_length_eq hp')
      exact ih hb.1 hb.2

theorem malloc_length {e : Env} {k n : Nat} {b : List Nat} (h : malloc e k n = some b) :
    b.length = n := by
  unfold malloc at h
  cases hk : e.heap k with
  | none => rw [hk] at h; cases h
  | some g =>
      rw [hk] at h
      injection h with h
      rw [← h]
      simp

/-- When the three opens and the two allocations succeed, `process_file` is its
loop, entered at the start of both streams, followed by the cleanup. -/
theorem process_file_run (e : Env) (fs : Files) (input_file pad_file output_file : String)
    (encrypt : Int) (b0 b1 : List Nat)
    (hin : (fs input_file).isSome = true) (hpad : (fs pad_file).isSome = true)
    (hout : e.can_create output_file = true)
    (h0 : malloc e 0 BUFFER_SIZE = some b0) (h1 : malloc e 1 BUFFER_SIZE = some b1) :
    process_file e fs input_file pad_file output_file encrypt =
      finish (fs.write output_file []) output_file
        (process_loop e (ProcState.start (((fs.write output_file []) input_file).getD [])
          (((fs.write output_file []) pad_file).getD []) b0 b1)) := by
  unfold process_file
  simp only [hin, hpad, hout, h0, h1, Bool.not_true, Bool.or_self, Bool.false_eq_true, if_false,
    if_true]
  rfl

theorem finish_status (fs1 : Files) (o : String) (r : Status × ProcState) :
    (finish fs1 o r).status = r.1 := rfl

theorem finish_output (fs1 : Files) (o : String) (r : Status × ProcState) :
    (finish fs1 o r).files o = some r.2.output := by
  obtain ⟨st, t⟩ := r
  cases st <;> simp [finish, Files.write, wipe_and_close]

theorem finish_pad_read (fs1 : Files) (o : String) (r : Status × ProcState) :
    (finish fs1 o r).pad_read = r.2.pad.pos := by
  obtain ⟨st, t⟩ := r
  cases st <;> rfl

theorem finish_input_read (fs1 : Files) (o : String) (r : Status × ProcState) :
    (finish fs1 o r).input_read = r.2.input.pos := by
  obtain ⟨st, t⟩ := r
  cases st <;> rfl

theorem finish_other (fs1 : Files) (o p : String) (r : Status × ProcState) (h : p ≠ o) :
    (finish fs1 o r).files p = fs1 p := by
  obtain ⟨st, t⟩ := r
  cases st <;> simp [finish, Files.write, h]

theorem write_other (fs : Files) (o p : String) (d : List Nat) (h : p ≠ o) :
    (fs.write o d) p = fs p := by
  simp [Files.write, h]

theorem malloc_isSome {e : Env} {k : Nat} (h : (e.heap k).isSome = true) :
    ∃ b, malloc e k BUFFER_SIZE = some b ∧ b.length = BUFFER_SIZE := by
  obtain ⟨g, hg⟩ := Option.isSome_iff_exists.mp h
  refine ⟨(List.range BUFFER_SIZE).map (fun i => g i % 256), ?_, by simp⟩
  simp [malloc, hg]

/-- With the input and pad files present, the output at a path of its own, and
the opens and allocations succeeding, `process_file` is its loop on the contents
of the two files followed by the cleanup. -/
theorem process_file_opened (e : Env) (fs : Files) (input_file pad_file output_file : String)
    (encrypt : Int) (P Q : List Nat)
    (hin : fs input_file = some P) (hpad : fs pad_file = some Q)
    (hio : output_file ≠ input_file) (hpo : output_file ≠ pad_file)
    (hout : e.can_create output_file = true)
    (h0 : (e.heap 0).isSome = true) (h1 : (e.heap 1).isSome = true) :
    ∃ b0 b1, b0.length = BUFFER_SIZE ∧ b1.length = BUFFER_SIZE ∧
      process_file e fs input_file pad_file output_file encrypt =
        finish (fs.write output_file []) output_file
          (process_loop e (ProcState.start P Q b0 b1)) := by
  obtain ⟨b0, hb0, hl0⟩ := malloc_isSome h0
  obtain ⟨b1, hb1, hl1⟩ := malloc_isSome h1
  refine ⟨b0, b1, hl0, hl1, ?_⟩
  rw [process_file_run e fs input_file pad_file output_file encrypt b0 b1 (by simp [hin])
    (by simp [hpad]) hout hb0 hb1, write_other _ _ _ _ (Ne.symm hio),
    write_other _ _ _ _ (Ne.symm hpo), hin, hpad]
  rfl

theorem xorBytes_length (P Q : List Nat) (h : P.length ≤ Q.length) :
    (xorBytes P Q).length = P.length := by
  simp [xorBytes, h]

theorem xor_byte_cancel (p q : Nat) (hp : p < 256) : ((p ^^^ q) % 256 ^^^ q) % 256 = p := by
  have h256 : (256 : Nat) = 2 ^ 8 := by norm_num
  apply Nat.eq_of_testBit_eq
  intro i
  rw [h256, Nat.testBit_mod_two_pow, Nat.testBit_xor, Nat.testBit_mod_two_pow, Nat.testBit_xor]
  by_cases hi : i < 8
  · simp [hi]
  · have : p < 2 ^ i := by
      have : 2 ^ 8 ≤ 2 ^ i := Nat.pow_le_pow_right (by norm_num) (by omega)
      omega
    simp [hi, Nat.testBit_lt_two_pow this]

theorem xorBytes_cancel (P Q : List Nat) (hP : IsBytes P) (h : P.length ≤ Q.length) :
    xorBytes (xorBytes P Q) Q = P := by
  apply List.ext_getElem
  · simp [xorBytes, h]
  · intro i h1 h2
    simp only [xorBytes, List.getElem_zipWith]
    exact xor_byte_cancel _ _ (hP _ (List.getElem_mem _))

theorem xorBytes_eq_xor (P Q : List Nat) (hP : IsBytes P) (hQ : IsBytes Q) :
    xorBytes P Q = List.zipWith (fun p q => p ^^^ q) P Q := by
  apply List.ext_getElem
  · simp [xorBytes]
  · intro i h1 h2
    simp only [xorBytes, List.length_zipWith] at h1
    simp only [xorBytes, List.getElem_zipWith]
    have hp : P[i] < 2 ^ 8 := hP _ (List.getElem_mem _)
    have hq : Q[i] < 2 ^ 8 := hQ _ (List.getElem_mem _)
    exact Nat.mod_eq_of_lt (Nat.xor_lt_two_pow hp hq)

theorem start_restIn (P Q b0 b1 : List Nat) : (ProcState.start P Q b0 b1).restIn = P := rfl

theorem start_restPad (P Q b0 b1 : List Nat) : (ProcState.start P Q b0 b1).restPad = Q := rfl

theorem not_opened {fs : Files} {input_file pad_file output_file : String} {e : Env}
    (hopen : ¬ ((fs input_file).isSome = true ∧ (fs pad_file).isSome = true ∧
      e.can_create output_file = true)) :
    (!(fs input_file).isSome || !(fs pad_file).isSome || !e.can_create output_file) = true := by
  by_cases h1 : (fs input_file).isSome = true
  · by_cases h2 : (fs pad_file).isSome = true
    · by_cases h3 : e.can_create output_file = true
      · exact absurd ⟨h1, h2, h3⟩ hopen
      · simp [h3]
    · simp [h2]
  · simp [h1]

/-- When one of the three opens fails, `process_file` takes the open-error exit
without allocating or releasing anything. -/
theorem process_file_open_fail (e : Env) (fs : Files) (input_file pad_file output_file : String)
    (encrypt : Int)
    (hopen : ¬ ((fs input_file).isSome = true ∧ (fs pad_file).isSome = true ∧
      e.can_create output_file = true)) :
    (process_file e fs input_file pad_file output_file encrypt).status = Status.openError ∧
    (process_file e fs input_file pad_file output_file encrypt).released = [] := by
  unfold process_file
  simp only [not_opened hopen, if_true, and_self]

/-- When the opens succeed and an allocation fails, `process_file` takes the
allocation-failure exit and releases what was allocated as it is. -/
theorem process_file_alloc_fail (e : Env) (fs : Files) (input_file pad_file output_file : String)
    (encrypt : Int)
    (hin : (fs input_file).isSome = true) (hpad : (fs pad_file).isSome = true)
    (hout : e.can_create output_file = true)
    (hfail : malloc e 0 BUFFER_SIZE = none ∨ malloc e 1 BUFFER_SIZE = none) :
    (process_file e fs input_file pad_file output_file encrypt).status = Status.allocError ∧
    (process_file e fs input_file pad_file output_file encrypt).released =
      (malloc e 0 BUFFER_SIZE).toList ++ (malloc e 1 BUFFER_SIZE).toList := by
  unfold process_file
  cases h0 : malloc e 0 BUFFER_SIZE with
  | none => simp [hin, hpad, hout]
  | some b0 =>
      cases h1 : malloc e 1 BUFFER_SIZE with
      | none => simp [hin, hpad, hout]
      | some b1 =>
          rw [h0, h1] at hfail
          rcases hfail with h | h <;> cases h

/-- The three ways `process_file` can go: an open fails (nothing is allocated or
released), an allocation fails (whatever was allocated is released as it is),
or the loop runs and the cleanup follows. -/
theorem process_file_cases (e : Env) (fs : Files) (input_file pad_file output_file : String)
    (encrypt : Int) :
    ((process_file e fs input_file pad_file output_file encrypt).status = Status.openError ∧
      (process_file e fs input_file pad_file output_file encrypt).released = []) ∨
    ((process_file e fs input_file pad_file output_file encrypt).status = Status.allocError ∧
      (process_file e fs input_file pad_file output_file encrypt).released =
        (malloc e 0 BUFFER_SIZE).toList ++ (malloc e 1 BUFFER_SIZE).toList) ∨
    (∃ b0 b1, b0.length = BUFFER_SIZE ∧ b1.length = BUFFER_SIZE ∧
      process_file e fs input_file pad_file output_file encrypt =
        finish (fs.write output_file []) output_file
          (process_loop e (ProcState.start (((fs.write output_file []) input_file).getD [])
            (((fs.write output_file []) pad_file).getD []) b0 b1))) := by
  by_cases hopen : (fs input_file).isSome = true ∧ (fs pad_file).isSome = true ∧
      e.can_create output_file = true
  · obtain ⟨hin, hpad, hout⟩ := hopen
    cases h0 : malloc e 0 BUFFER_SIZE with
    | none =>
        right; left
        have h := process_file_alloc_fail e fs input_file pad_file output_file encrypt hin hpad
          hout (Or.inl h0)
        rw [h0] at h
        exact h
    | some b0 =>
        cases h1 : malloc e 1 BUFFER_SIZE with
        | none =>
            right; left
            have h := process_file_alloc_fail e fs input_file pad_file output_file encrypt hin
              hpad hout (Or.inr h1)
            rw [h0, h1] at h
            exact h
        | some b1 =>
            right; right
            exact ⟨b0, b1, malloc_length h0, malloc_length h1,
              process_file_run e fs input_file pad_file output_file encrypt b0 b1 hin hpad hout
                h0 h1⟩
  · left
    exact process_file_open_fail e fs input_file pad_file output_file encrypt hopen

end V12

/-! ## The generation loop -/

namespace V12

theorem randChunk_length (g : Nat → Nat) (n : Nat) : (randChunk g n).length = n := by
  simp [randChunk]

theorem remapBytes_length (l : List Nat) : (remapBytes l).length = l.length := by
  simp [remapBytes]

theorem remap_loop_store (bytes rest : List Nat) :
    remap_loop bytes.length 0 (bytes ++ rest) = remapBytes bytes ++ rest := by
  apply List.ext_getElem?
  intro j
  rw [remap_loop_eq, updRange_getElem?]
  by_cases hj : j < bytes.length
  · have h1 : 0 ≤ j ∧ j < 0 + bytes.length := by omega
    have h2 : j < (remapBytes bytes).length := by rw [remapBytes_length]; exact hj
    rw [if_pos h1, List.getElem?_append_left hj, List.getElem?_append_left h2]
    have hlt : bytes[j] % 95 + 32 < 256 := by omega
    simp [remapBytes, List.getElem?_eq_getElem hj, Nat.mod_eq_of_lt hlt]
  · have h1 : ¬ (0 ≤ j ∧ j < 0 + bytes.length) := by omega
    rw [if_neg h1, List.getElem?_append_right (by omega),
      List.getElem?_append_right (by rw [remapBytes_length]; omega), remapBytes_length]

theorem chunk_of_le (n : Nat) : chunk_of n ≤ n ∧ chunk_of n ≤ BUFFER_SIZE := by
  unfold chunk_of
  split <;> omega

theorem chunk_of_pos {n : Nat} (h : 0 < n) : 0 < chunk_of n := by
  have hb : 0 < BUFFER_SIZE := by decide
  unfold chunk_of
  split <;> omega

theorem gen_loop_next {e : Env} {s t : GenState} (h : gen_body e s = Step.next t) :
    gen_loop e s = gen_loop e t := by
  rw [gen_loop]
  split <;> simp_all

theorem gen_loop_done {e : Env} {s t : GenState} (h : gen_body e s = Step.done t) :
    gen_loop e s = (Status.success, t) := by
  rw [gen_loop]
  split <;> simp_all

theorem gen_loop_fail {e : Env} {s t : GenState} {st : Status}
    (h : gen_body e s = Step.fail st t) :
    gen_loop e s = (st, t) := by
  rw [gen_loop]
  split <;> simp_all

theorem gen_body_done {e : Env} {s : GenState} (h : s.remaining = 0) :
    gen_body e s = Step.done s := by
  unfold gen_body
  rw [if_neg (by omega)]

theorem gen_body_rng {e : Env} {s : GenState} (h : 0 < s.remaining)
    (hr : e.rand s.rand_calls = none) :
    gen_body e s = Step.fail Status.rngError s.rngExit := by
  unfold gen_body
  rw [if_pos h]
  simp only [hr]
  rfl

theorem gen_buffer_eq (s : GenState) (g : Nat → Nat) :
    remap_loop (chunk_of s.remaining) 0
        (store s.buffer ((List.range (chunk_of s.remaining)).map (fun i => g i % 256)))
      = remapBytes (randChunk g (chunk_of s.remaining))
          ++ s.buffer.drop (chunk_of s.remaining) := by
  have h := remap_loop_store (randChunk g (chunk_of s.remaining))
    (s.buffer.drop (chunk_of s.remaining))
  rw [randChunk_length] at h
  rw [← h, store]
  simp [randChunk]

theorem gen_take_eq (s : GenState) (g : Nat → Nat) :
    List.take (chunk_of s.remaining)
        (remapBytes (randChunk g (chunk_of s.remaining)) ++ s.buffer.drop (chunk_of s.remaining))
      = remapBytes (randChunk g (chunk_of s.remaining)) := by
  have hl : (remapBytes (randChunk g (chunk_of s.remaining))).length = chunk_of s.remaining := by
    rw [remapBytes_length, randChunk_length]
  rw [List.take_append_eq_append_take, hl, Nat.sub_self, List.take_zero, List.append_nil,
    List.take_of_length_le (Nat.le_of_eq hl)]

theorem gen_body_next {e : Env} {s : GenState} {g : Nat → Nat} (h : 0 < s.remaining)
    (hr : e.rand s.rand_calls = some g)
    (hw : chunk_of s.remaining ≤ e.fwrite_ret s.pad.length (chunk_of s.remaining)) :
    gen_body e s = Step.next (s.afterIter g) := by
  have hl : (remapBytes (randChunk g (chunk_of s.remaining))).length = chunk_of s.remaining := by
    rw [remapBytes_length, randChunk_length]
  unfold gen_body
  rw [if_pos h]
  simp only [hr, gen_buffer_eq, gen_take_eq, fwrite, hl, Nat.min_eq_left hw, ne_eq,
    not_true_eq_false, if_false]
  rfl

theorem gen_body_wfail {e : Env} {s : GenState} {g : Nat → Nat} (h : 0 < s.remaining)
    (hr : e.rand s.rand_calls = some g)
    (hw : e.fwrite_ret s.pad.length (chunk_of s.remaining) < chunk_of s.remaining) :
    gen_body e s = Step.fail Status.writeError
      (s.writeExit g (e.fwrite_ret s.pad.length (chunk_of s.remaining))) := by
  have hl : (remapBytes (randChunk g (chunk_of s.remaining))).length = chunk_of s.remaining := by
    rw [remapBytes_length, randChunk_length]
  have h5 : min (chunk_of s.remaining) (e.fwrite_ret s.pad.length (chunk_of s.remaining))
      = e.fwrite_ret s.pad.length (chunk_of s.remaining) := Nat.min_eq_right (Nat.le_of_lt hw)
  have h6 : e.fwrite_ret s.pad.length (chunk_of s.remaining) ≠ chunk_of s.remaining :=
    Nat.ne_of_lt hw
  unfold gen_body
  rw [if_pos h]
  simp only [hr, gen_buffer_eq, gen_take_eq, fwrite, hl, h5, ne_eq, h6, not_false_eq_true,
    if_true]
  rfl

/-- Induction along the iterations of the generation loop, by the way an
iteration ends: nothing remaining, `RAND_bytes` failing, a short write, or going
round again. -/
theorem gen_loop_induct (e : Env) (motive : GenState → Prop)
    (done : ∀ s, s.remaining = 0 → gen_body e s = Step.done s → motive s)
    (rng : ∀ s, 0 < s.remaining → e.rand s.rand_calls = none →
      gen_body e s = Step.fail Status.rngError s.rngExit → motive s)
    (wfail : ∀ s g, 0 < s.remaining → e.rand s.rand_calls = some g →
      e.fwrite_ret s.pad.length (chunk_of s.remaining) < chunk_of s.remaining →
      gen_body e s = Step.fail Status.writeError
        (s.writeExit g (e.fwrite_ret s.pad.length (chunk_of s.remaining))) → motive s)
    (next : ∀ s g, 0 < s.remaining → e.rand s.rand_calls = some g →
      chunk_of s.remaining ≤ e.fwrite_ret s.pad.length (chunk_of s.remaining) →
      gen_body e s = Step.next (s.afterIter g) → motive (s.afterIter g) → motive s) :
    ∀ s, motive s := by
  have main : ∀ (n : Nat) (s : GenState), s.remaining = n → motive s := by
    intro n
    induction n using Nat.strong_induction_on with
    | _ n ih =>
      intro s hn
      by_cases h : s.remaining = 0
      · exact done s h (gen_body_done h)
      · have hpos : 0 < s.remaining := by omega
        cases hr : e.rand s.rand_calls with
        | none => exact rng s hpos hr (gen_body_rng hpos hr)
        | some g =>
            by_cases hw : chunk_of s.remaining ≤ e.fwrite_ret s.pad.length (chunk_of s.remaining)
            · refine next s g hpos hr hw (gen_body_next hpos hr hw)
                (ih (s.afterIter g).remaining ?_ _ rfl)
              have := chunk_of_pos hpos
              show s.remaining - chunk_of s.remaining < n
              omega
            · exact wfail s g hpos hr (by omega) (gen_body_wfail hpos hr (by omega))
  intro s
  exact main _ s rfl

theorem generate_run (e : Env) (fs : Files) (pad_file : String) (length : Nat) (b : List Nat)
    (hlen : MIN_PAD_SIZE ≤ length) (hc : e.can_create pad_file = true)
    (hb : malloc e 0 BUFFER_SIZE = some b) :
    generate_random_pad e fs pad_file length =
      genFinish (fs.write pad_file []) pad_file (gen_loop e (genStart length b)) := by
  unfold generate_random_pad
  rw [if_neg (by omega)]
  simp only [hc, not_true_eq_false, if_false, hb]
  rfl

theorem genFinish_status (fs1 : Files) (p : String) (r : Status × GenState) :
    (genFinish fs1 p r).status = r.1 := by
  obtain ⟨st, t⟩ := r
  cases st <;> rfl

theorem genFinish_file (fs1 : Files) (p : String) (r : Status × GenState) :
    (genFinish fs1 p r).files p = some r.2.pad := by
  obtain ⟨st, t⟩ := r
  cases st <;> simp [genFinish, Files.write]

theorem genFinish_rand_log (fs1 : Files) (p : String) (r : Status × GenState) :
    (genFinish fs1 p r).rand_log = r.2.rand_log := by
  obtain ⟨st, t⟩ := r
  cases st <;> rfl

theorem printable_append {l m : List Nat} (hl : Printable l) (hm : Printable m) :
    Printable (l ++ m) := by
  intro b hb
  rcases List.mem_append.mp hb with h | h
  · exact hl b h
  · exact hm b h

theorem printable_remapBytes (l : List Nat) : Printable (remapBytes l) := by
  intro b hb
  obtain ⟨x, -, rfl⟩ := List.mem_map.mp hb
  constructor <;> omega

theorem printable_take {l : List Nat} (k : Nat) (hl : Printable l) : Printable (l.take k) :=
  fun b hb => hl b (List.mem_of_mem_take hb)

/-- Whatever the environment does, the generation loop only ever appends
printable bytes to the pad stream. -/
theorem gen_loop_printable (e : Env) (s : GenState) (h : Printable s.pad) :
    Printable (gen_loop e s).2.pad := by
  revert h
  induction s using gen_loop_induct e with
  | done s h0 hb => intro h; rw [gen_loop_done hb]; exact h
  | rng s h0 hr hb => intro h; rw [gen_loop_fail hb]; exact h
  | wfail s g h0 hr hw hb =>
      intro h
      rw [gen_loop_fail hb]
      exact printable_append h (printable_take _ (printable_remapBytes _))
  | next s g h0 hr hw hb ih =>
      intro h
      rw [gen_loop_next hb]
      exact ih (printable_append h (printable_take _ (printable_remapBytes _)))

theorem logSound_afterIter {e : Env} {s : GenState} {g : Nat → Nat}
    (hr : e.rand s.rand_calls = some g) (h : LogSound e s) : LogSound e (s.afterIter g) := by
  obtain ⟨h1, h2⟩ := h
  constructor
  · show (s.rand_log ++ [randChunk g (chunk_of s.remaining)]).length = s.rand_calls + 1
    rw [List.length_append, h1]
    rfl
  · intro k hk
    have hk' : k < (s.rand_log ++ [randChunk g (chunk_of s.remaining)]).length := hk
    show ∃ g', e.rand k = some g' ∧
      (s.rand_log ++ [randChunk g (chunk_of s.remaining)])[k] = randChunk g'
        ((s.rand_log ++ [randChunk g (chunk_of s.remaining)])[k]).length
    by_cases hlt : k < s.rand_log.length
    · rw [List.getElem_append_left hlt]
      exact h2 k hlt
    · have hke : k = s.rand_log.length := by
        rw [List.length_append, List.length_singleton] at hk'
        omega
      subst hke
      refine ⟨g, by rw [h1]; exact hr, ?_⟩
      rw [List.getElem_append_right (Nat.le_refl _)]
      simp [randChunk_length]

/-- With every `RAND_bytes` call succeeding and every write complete, the
generation loop ends with success, having appended exactly `remaining` bytes:
the remapped concatenation of the chunks it logged. -/
theorem gen_loop_ok (e : Env) (hrand : ∀ k, (e.rand k).isSome = true) (hw : e.writesComplete)
    (s : GenState) :
    (gen_loop e s).1 = Status.success ∧
    (gen_loop e s).2.pad.length = s.pad.length + s.remaining ∧
    (s.pad = remapBytes s.rand_log.flatten →
      (gen_loop e s).2.pad = remapBytes (gen_loop e s).2.rand_log.flatten) ∧
    (LogSound e s → LogSound e (gen_loop e s).2) := by
  induction s using gen_loop_induct e with
  | done s h0 hb =>
      rw [gen_loop_done hb]
      exact ⟨rfl, by rw [h0]; rfl, fun h => h, fun h => h⟩
  | rng s h0 hr hb =>
      have := hrand s.rand_calls
      rw [hr] at this
      cases this
  | wfail s g h0 hr hw' hb =>
      have := hw s.pad.length (chunk_of s.remaining)
      omega
  | next s g h0 hr hw' hb ih =>
      rw [gen_loop_next hb]
      obtain ⟨h1, h2, h3, h4⟩ := ih
      have hl : (remapBytes (randChunk g (chunk_of s.remaining))).length
          = chunk_of s.remaining := by
        rw [remapBytes_length, randChunk_length]
      have hpad : (s.afterIter g).pad = s.pad ++ remapBytes (randChunk g (chunk_of s.remaining)) := by
        show s.pad ++ (remapBytes (randChunk g (chunk_of s.remaining))).take _ = _
        rw [List.take_of_length_le (Nat.le_of_eq hl)]
      refine ⟨h1, ?_, ?_, fun h => h4 (logSound_afterIter hr h)⟩
      · rw [h2, hpad, List.length_append, hl]
        have := (chunk_of_le s.remaining).1
        show _ + (s.remaining - chunk_of s.remaining) = _
        omega
      · intro hinv
        apply h3
        rw [hpad, hinv]
        show _ = remapBytes (s.rand_log ++ [randChunk g (chunk_of s.remaining)]).flatten
        simp [remapBytes]

end V12

namespace V12

theorem secure_memzero_length (v : List Nat) (n : Nat) : (secure_memzero v n).length = v.length := by
  rw [secure_memzero, secure_memzero_loop_eq, updRange_length]

/-- Whatever the environment does, the buffer keeps its size through the
generation loop, a successful run releases nothing inside the loop, and every
failing exit wipes the buffer before releasing it. -/
theorem gen_loop_buffers (e : Env) (s : GenState) (hb : s.buffer.length = BUFFER_SIZE) :
    ((gen_loop e s).1 = Status.success →
      (gen_loop e s).2.buffer.length = BUFFER_SIZE ∧ (gen_loop e s).2.released = s.released) ∧
    ((gen_loop e s).1 ≠ Status.success →
      (gen_loop e s).2.released = s.released ++ [zeroBuffer]) ∧
    ((gen_loop e s).1 = Status.success ∨ (gen_loop e s).1 = Status.rngError ∨
      (gen_loop e s).1 = Status.writeError) := by
  revert hb
  induction s using gen_loop_induct e with
  | done s h0 hbody =>
      intro hb
      rw [gen_loop_done hbody]
      exact ⟨fun _ => ⟨hb, rfl⟩, fun hne => absurd rfl hne, Or.inl rfl⟩
  | rng s h0 hr hbody =>
      intro hb
      rw [gen_loop_fail hbody]
      refine ⟨fun hs => (by cases hs), fun _ => ?_, Or.inr (Or.inl rfl)⟩
      show s.released ++ [secure_memzero s.buffer BUFFER_SIZE] = _
      rw [secure_memzero_buffer hb]
  | wfail s g h0 hr hw hbody =>
      intro hb
      rw [gen_loop_fail hbody]
      refine ⟨fun hs => (by cases hs), fun _ => ?_, Or.inr (Or.inr rfl)⟩
      show s.released ++ [secure_memzero (s.afterChunk g _).buffer BUFFER_SIZE] = _
      rw [secure_memzero_buffer]
      show (remapBytes (randChunk g (chunk_of s.remaining))
        ++ s.buffer.drop (chunk_of s.remaining)).length = BUFFER_SIZE
      rw [List.length_append, remapBytes_length, randChunk_length, List.length_drop, hb]
      have := (chunk_of_le s.remaining).2
      omega
  | next s g h0 hr hw hbody ih =>
      intro hb
      rw [gen_loop_next hbody]
      apply ih
      show (remapBytes (randChunk g (chunk_of s.remaining))
        ++ s.buffer.drop (chunk_of s.remaining)).length = BUFFER_SIZE
      rw [List.length_append, remapBytes_length, randChunk_length, List.length_drop, hb]
      have := (chunk_of_le s.remaining).2
      omega

/-- The buffers `generate_random_pad` releases, on each of its exits. -/
theorem generate_released (e : Env) (fs : Files) (pad_file : String) (length : Nat) :
    (((generate_random_pad e fs pad_file length).status = Status.invalidLength ∨
        (generate_random_pad e fs pad_file length).status = Status.openError ∨
        (generate_random_pad e fs pad_file length).status = Status.allocError) ∧
      (generate_random_pad e fs pad_file length).released = []) ∨
    (((generate_random_pad e fs pad_file length).status = Status.success ∨
        (generate_random_pad e fs pad_file length).status = Status.rngError ∨
        (generate_random_pad e fs pad_file length).status = Status.writeError) ∧
      (generate_random_pad e fs pad_file length).released = [zeroBuffer]) := by
  by_cases hlen : length < MIN_PAD_SIZE
  · left
    unfold generate_random_pad
    rw [if_pos hlen]
    exact ⟨Or.inl rfl, rfl⟩
  · by_cases hc : e.can_create pad_file = true
    · cases hb : malloc e 0 BUFFER_SIZE with
      | none =>
          left
          unfold generate_random_pad
          rw [if_neg hlen]
          simp [hc, hb]
      | some b =>
          right
          rw [generate_run e fs pad_file length b (by omega) hc hb]
          obtain ⟨h1, h2, h3⟩ := gen_loop_buffers e (genStart length b) (malloc_length hb)
          generalize gen_loop e (genStart length b) = r at h1 h2 h3
          obtain ⟨st, t⟩ := r
          rcases h3 with h | h | h
          · have h : st = Status.success := h
            subst h
            obtain ⟨hl, hr⟩ := h1 rfl
            refine ⟨Or.inl rfl, ?_⟩
            show t.released ++ [secure_memzero t.buffer BUFFER_SIZE] = _
            rw [hr, secure_memzero_buffer hl]
            rfl
          · have h : st = Status.rngError := h
            subst h
            exact ⟨Or.inr (Or.inl rfl), h2 (fun hc => Status.noConfusion hc)⟩
          · have h : st = Status.writeError := h
            subst h
            exact ⟨Or.inr (Or.inr rfl), h2 (fun hc => Status.noConfusion hc)⟩
    · left
      unfold generate_random_pad
      rw [if_neg hlen]
      simp only [hc, not_false_eq_true, if_true]
      exact ⟨Or.inr (Or.inl rfl), rfl⟩

/-- The statuses the processing loop can end with. -/
theorem process_loop_status_mem (e : Env) (s : ProcState) :
    (process_loop e s).1 = Status.success ∨ (process_loop e s).1 = Status.padExhausted ∨
      (process_loop e s).1 = Status.writeError := by
  induction s using process_loop_induct e with
  | done s h hb => rw [process_loop_done hb]; exact Or.inl rfl
  | short s h hp hb => rw [process_loop_fail hb]; exact Or.inr (Or.inl rfl)
  | wfail s h hp hw hb => rw [process_loop_fail hb]; exact Or.inr (Or.inr rfl)
  | next s h hp hw hb ih => rw [process_loop_next hb]; exact ih

/-- The buffers `process_file` releases once its loop has been entered: both,
wiped. -/
theorem finish_released (fs1 : Files) (o : String) (e : Env) (P Q b0 b1 : List Nat)
    (h0 : b0.length = BUFFER_SIZE) (h1 : b1.length = BUFFER_SIZE) :
    (finish fs1 o (process_loop e (ProcState.start P Q b0 b1))).released
      = [zeroBuffer, zeroBuffer] := by
  obtain ⟨hs, hf⟩ := process_loop_buffers e (ProcState.start P Q b0 b1) h0 h1
  by_cases hst : (process_loop e (ProcState.start P Q b0 b1)).1 = Status.success
  · obtain ⟨hl0, hl1⟩ := hs hst
    have hrel := (process_loop_success e _ hst).2.2.2.2.1
    have : (finish fs1 o (process_loop e (ProcState.start P Q b0 b1))).released
        = (wipe_and_close (process_loop e (ProcState.start P Q b0 b1)).2).released := by
      unfold finish
      rw [hst]
    rw [this, wipe_and_close_released hl0 hl1, hrel]
    rfl
  · have hrel := (hf hst).1
    have : (finish fs1 o (process_loop e (ProcState.start P Q b0 b1))).released
        = (process_loop e (ProcState.start P Q b0 b1)).2.released := by
      unfold finish
      generalize process_loop e (ProcState.start P Q b0 b1) = r at hst
      obtain ⟨st, t⟩ := r
      cases st
      · exact absurd rfl hst
      all_goals rfl
    rw [this, hrel]
    rfl

/-- When both allocations succeed, `process_file` does not take the
allocation-failure exit. -/
theorem process_file_heap_ok (e : Env) (fs : Files) (input_file pad_file output_file : String)
    (encrypt : Int) (h0 : (e.heap 0).isSome = true) (h1 : (e.heap 1).isSome = true) :
    (process_file e fs input_file pad_file output_file encrypt).status ≠ Status.allocError := by
  obtain ⟨b0, hb0, -⟩ := malloc_isSome h0
  obtain ⟨b1, hb1, -⟩ := malloc_isSome h1
  by_cases hopen : (fs input_file).isSome = true ∧ (fs pad_file).isSome = true ∧
      e.can_create output_file = true
  · rw [process_file_run e fs input_file pad_file output_file encrypt b0 b1 hopen.1 hopen.2.1
      hopen.2.2 hb0 hb1, finish_status]
    rcases process_loop_status_mem e (ProcState.start
      (((fs.write output_file []) input_file).getD [])
      (((fs.write output_file []) pad_file).getD []) b0 b1) with hm | hm | hm <;>
      rw [hm] <;> decide
  · rw [(process_file_open_fail e fs input_file pad_file output_file encrypt hopen).1]
    decide

end V12

namespace V12

/-- The status and output of `process_file` when nothing in the environment
fails and the output has a path of its own. -/
theorem process_file_noFault (e : Env) (fs : Files) (input_file pad_file output_file : String)
    (encrypt : Int) (P Q : List Nat)
    (hin : fs input_file = some P) (hpad : fs pad_file = some Q)
    (hoi : output_file ≠ input_file) (hop : output_file ≠ pad_file)
    (he : NoFault e output_file) (hlen : P.length ≤ Q.length) :
    (process_file e fs input_file pad_file output_file encrypt).status = Status.success ∧
    (process_file e fs input_file pad_file output_file encrypt).files output_file
      = some (xorBytes P Q) ∧
    (process_file e fs input_file pad_file output_file encrypt).pad_read = P.length := by
  obtain ⟨b0, b1, -, -, h1⟩ := process_file_opened e fs input_file pad_file output_file
    encrypt P Q hin hpad hoi hop he.1 he.2.1 he.2.2.1
  have hst := process_loop_status e he.2.2.2 (ProcState.start P Q b0 b1)
  rw [start_restIn, start_restPad, if_pos hlen] at hst
  obtain ⟨-, hout, -, hpos, -, -⟩ := process_loop_success e _ hst
  rw [start_restIn, start_restPad] at hout
  rw [start_restIn] at hpos
  refine ⟨by rw [h1, finish_status, hst], ?_, ?_⟩
  · rw [h1, finish_output, hout]
    rfl
  · rw [h1, finish_pad_read, hpos]
    show 0 + P.length = P.length
    omega

/-- Positions at the start of any iteration: both streams have advanced by the
same amount since the loop was entered. -/
theorem iterStart_pos (e : Env) (s0 s : ProcState) (h : IterStart e s0 s) :
    s.pad.pos + s0.input.pos = s.input.pos + s0.pad.pos := by
  induction h with
  | first => exact Nat.add_comm _ _
  | step hs hb ih =>
      rename_i s t
      rw [loop_body_eq] at hb
      by_cases h1 : s.chunkIn.length > 0
      · rw [if_pos h1] at hb
        by_cases h2 : s.chunkPad.length ≠ s.chunkIn.length
        · rw [if_pos h2] at hb
          cases hb
        · rw [if_neg h2] at hb
          have h2' : s.chunkPad.length = s.chunkIn.length := not_not.mp h2
          dsimp only at hb
          split at hb
          · cases hb
          · injection hb with hb
            subst hb
            show s.pad.pos + s.chunkPad.length + s0.input.pos
              = s.input.pos + s.chunkIn.length + s0.pad.pos
            omega
      · rw [if_neg h1] at hb
        cases hb

/-- Every state at the start of an iteration lies on the run: the loop entered
there ends as the loop entered at the beginning does. -/
theorem iterStart_run (e : Env) (s0 s : ProcState) (h : IterStart e s0 s) :
    process_loop e s0 = process_loop e s := by
  induction h with
  | first => rfl
  | step hs hb ih => rw [ih, process_loop_next hb]

theorem xorBytes_take (P Q : List Nat) : xorBytes P Q = xorBytes P (Q.take P.length) := by
  have h1 : (xorBytes P Q).take P.length = xorBytes (P.take P.length) (Q.take P.length) := by
    unfold xorBytes
    rw [List.take_zipWith]
  have h2 : (xorBytes P Q).take P.length = xorBytes P Q := by
    apply List.take_of_length_le
    simp [xorBytes]
  rw [← h2, h1, List.take_length]

end V12

namespace V11

theorem fputc_loop_printable (e : Env) (buffer : List Nat) (k i : Nat) (pad : List Nat)
    (h : Printable pad) : Printable (fputc_loop e buffer k i pad) := by
  induction k generalizing i pad with
  | zero => exact h
  | succ k ih =>
      rw [fputc_loop]
      apply ih
      apply V12.printable_append h
      apply V12.printable_take
      intro b hb
      rw [List.mem_singleton] at hb
      subst hb
      have hlt : buffer.getD i 0 % 95 + 32 < 256 := by omega
      rw [Nat.mod_eq_of_lt hlt]
      constructor <;> omega

end V11

theorem calmEnv_noFault (o : String) : V12.NoFault calmEnv o :=
  ⟨rfl, rfl, rfl, fun _ n => Nat.le_refl n⟩

theorem isBytes_replicate (n b : Nat) (h : b < 256) : IsBytes (List.replicate n b) := by
  intro x hx
  rw [List.eq_of_mem_replicate hx]
  exact h

/-! ## Version 1.1 and `main` -/

namespace V11

theorem char_loop_flag (e : Env) (encrypt encrypt2 : Int) (input pad : List Nat)
    (s : CharState) :
    char_loop e encrypt input pad s = char_loop e encrypt2 input pad s := by
  induction input generalizing pad s with
  | nil => rw [char_loop, char_loop]
  | cons a input ih =>
      cases pad with
      | nil => rw [char_loop, char_loop]
      | cons b pad =>
          rw [char_loop, char_loop, ite_self, ite_self]
          exact ih _ _

end V11

namespace V12

/-- The whole outcome of `process_file` when one of the three opens fails. -/
theorem process_file_open_fail_eq (e : Env) (fs : Files)
    (input_file pad_file output_file : String) (encrypt : Int)
    (hopen : ¬ ((fs input_file).isSome = true ∧ (fs pad_file).isSome = true ∧
      e.can_create output_file = true)) :
    process_file e fs input_file pad_file output_file encrypt =
      { status := Status.openError,
        files := if e.can_create output_file = true then fs.write output_file [] else fs,
        fopens := 3, mallocs := 0, rand_calls := 0, released := [],
        closed := (if (fs input_file).isSome = true then [Handle.input] else []) ++
          (if (fs pad_file).isSome = true then [Handle.pad] else []) ++
          (if e.can_create output_file = true then [Handle.output] else []),
        input_read := 0, pad_read := 0, rand_log := [] } := by
  unfold process_file
  simp only [not_opened hopen, if_true]

theorem process_file_alloc_fail_closed (e : Env) (fs : Files)
    (input_file pad_file output_file : String) (encrypt : Int)
    (hin : (fs input_file).isSome = true) (hpad : (fs pad_file).isSome = true)
    (hout : e.can_create output_file = true)
    (hfail : malloc e 0 BUFFER_SIZE = none ∨ malloc e 1 BUFFER_SIZE = none) :
    (process_file e fs input_file pad_file output_file encrypt).closed =
      [Handle.input, Handle.pad, Handle.output] := by
  unfold process_file
  cases h0 : malloc e 0 BUFFER_SIZE with
  | none => simp [hin, hpad, hout]
  | some b0 =>
      cases h1 : malloc e 1 BUFFER_SIZE with
      | none => simp [hin, hpad, hout]
      | some b1 =>
          rw [h0, h1] at hfail
          rcases hfail with h | h <;> cases h

/-- The streams `process_file` closes once its loop has been entered: all three,
once each. -/
theorem finish_closed (fs1 : Files) (o : String) (e : Env) (P Q b0 b1 : List Nat)
    (h0 : b0.length = BUFFER_SIZE) (h1 : b1.length = BUFFER_SIZE) :
    (finish fs1 o (process_loop e (ProcState.start P Q b0 b1))).closed
      = [Handle.input, Handle.pad, Handle.output] := by
  obtain ⟨-, hf⟩ := process_loop_buffers e (ProcState.start P Q b0 b1) h0 h1
  by_cases hst : (process_loop e (ProcState.start P Q b0 b1)).1 = Status.success
  · have hcl := (process_loop_success e _ hst).2.2.2.2.2
    have : (finish fs1 o (process_loop e (ProcState.start P Q b0 b1))).closed
        = (wipe_and_close (process_loop e (ProcState.start P Q b0 b1)).2).closed := by
      unfold finish
      rw [hst]
    rw [this]
    show (process_loop e (ProcState.start P Q b0 b1)).2.closed ++ _ = _
    rw [hcl]
    rfl
  · have hcl := (hf hst).2
    have : (finish fs1 o (process_loop e (ProcState.start P Q b0 b1))).closed
        = (process_loop e (ProcState.start P Q b0 b1)).2.closed := by
      unfold finish
      generalize process_loop e (ProcState.start P Q b0 b1) = r at hst
      obtain ⟨st, t⟩ := r
      cases st
      · exact absurd rfl hst
      all_goals rfl
    rw [this, hcl]
    rfl

/-- The `fclose` calls of `process_file`, on every exit: one for each stream that
was opened, in the order input, pad, output. -/
theorem process_file_closed (e : Env) (fs : Files) (input_file pad_file output_file : String)
    (encrypt : Int) :
    (process_file e fs input_file pad_file output_file encrypt).closed =
      (if (fs input_file).isSome = true then [Handle.input] else []) ++
      (if (fs pad_file).isSome = true then [Handle.pad] else []) ++
      (if e.can_create output_file = true then [Handle.output] else []) := by
  by_cases hopen : (fs input_file).isSome = true ∧ (fs pad_file).isSome = true ∧
      e.can_create output_file = true
  · obtain ⟨hin, hpad, hout⟩ := hopen
    rw [if_pos hin, if_pos hpad, if_pos hout]
    cases h0 : malloc e 0 BUFFER_SIZE with
    | none =>
        exact process_file_alloc_fail_closed e fs input_file pad_file output_file encrypt hin
          hpad hout (Or.inl h0)
    | some b0 =>
        cases h1 : malloc e 1 BUFFER_SIZE with
        | none =>
            exact process_file_alloc_fail_closed e fs input_file pad_file output_file encrypt
              hin hpad hout (Or.inr h1)
        | some b1 =>
            rw [process_file_run e fs input_file pad_file output_file encrypt b0 b1 hin hpad
              hout h0 h1, finish_closed _ _ _ _ _ _ _ (malloc_length h0) (malloc_length h1)]
            rfl
  · rw [process_file_open_fail_eq e fs input_file pad_file output_file encrypt hopen]

end V12

namespace V12

/-- The invalid-length exit of `generate_random_pad` is taken only for a length
below the minimum. -/
theorem generate_invalid_length (e : Env) (fs : Files) (pad_file : String) (length : Nat)
    (hlen : MIN_PAD_SIZE ≤ length) :
    (generate_random_pad e fs pad_file length).status ≠ Status.invalidLength := by
  by_cases hc : e.can_create pad_file = true
  · cases hb : malloc e 0 BUFFER_SIZE with
    | none =>
        have : (generate_random_pad e fs pad_file length).status = Status.allocError := by
          unfold generate_random_pad
          rw [if_neg (by omega)]
          simp [hc, hb]
        rw [this]
        decide
    | some b =>
        rw [generate_run e fs pad_file length b hlen hc hb, genFinish_status]
        rcases (gen_loop_buffers e (genStart length b) (malloc_length hb)).2.2 with h | h | h <;>
          rw [h] <;> decide
  · have : (generate_random_pad e fs pad_file length).status = Status.openError := by
      unfold generate_random_pad
      rw [if_neg (by omega), if_pos hc]
    rw [this]
    decide

end V12

namespace V12

theorem main_generate (e : Env) (fs : Files) (argv : List String)
    (hg : argv.length = 3 ∧ argv.getD 1 "" = "-g") :
    main e fs argv = after_call (Invocation.generate (argv.getD 2 "") PAD_SIZE)
      (generate_random_pad e fs (argv.getD 2 "") PAD_SIZE) := by
  unfold main
  exact if_pos hg

theorem main_encrypt (e : Env) (fs : Files) (argv : List String)
    (hg : ¬ (argv.length = 3 ∧ argv.getD 1 "" = "-g"))
    (he : argv.length = 5 ∧ argv.getD 1 "" = "-e") :
    main e fs argv =
      after_call (Invocation.process (argv.getD 2 "") (argv.getD 3 "") (argv.getD 4 "") 1)
        (process_file e fs (argv.getD 2 "") (argv.getD 3 "") (argv.getD 4 "") 1) := by
  unfold main
  exact (if_neg hg).trans (if_pos he)

theorem main_decrypt (e : Env) (fs : Files) (argv : List String)
    (hg : ¬ (argv.length = 3 ∧ argv.getD 1 "" = "-g"))
    (he : ¬ (argv.length = 5 ∧ argv.getD 1 "" = "-e"))
    (hd : argv.length = 5 ∧ argv.getD 1 "" = "-d") :
    main e fs argv =
      after_call (Invocation.process (argv.getD 2 "") (argv.getD 3 "") (argv.getD 4 "") 0)
        (process_file e fs (argv.getD 2 "") (argv.getD 3 "") (argv.getD 4 "") 0) := by
  unfold main
  exact (if_neg hg).trans ((if_neg he).trans (if_pos hd))

theorem main_usage (e : Env) (fs : Files) (argv : List String)
    (hg : ¬ (argv.length = 3 ∧ argv.getD 1 "" = "-g"))
    (he : ¬ (argv.length = 5 ∧ argv.getD 1 "" = "-e"))
    (hd : ¬ (argv.length = 5 ∧ argv.getD 1 "" = "-d")) :
    main e fs argv =
      { invoked := Invocation.usage, outcome := none, files := fs, exit_code := EXIT_FAILURE } := by
  unfold main
  exact (if_neg hg).trans ((if_neg he).trans (if_neg hd))

end V12

/-! ## The remap and the wipe -/

set_option maxRecDepth 100000 in
theorem remap_count_small :
    ∀ v < 127, ((List.range 256).filter (fun b => decide (b % 95 + 32 = v))).length =
      if 32 ≤ v ∧ v ≤ 97 then 3 else if 98 ≤ v ∧ v ≤ 126 then 2 else 0 := by
  decide

theorem preimages_eq (v : Nat) :
    preimages v = (List.range 256).filter (fun b => decide (b % 95 + 32 = v)) := by
  unfold preimages
  apply List.filter_congr
  intro b _
  simp [V12.remapBytes]

theorem preimages_count (v : Nat) :
    (preimages v).length =
      if 32 ≤ v ∧ v ≤ 97 then 3 else if 98 ≤ v ∧ v ≤ 126 then 2 else 0 := by
  rw [preimages_eq]
  by_cases hv : v < 127
  · exact remap_count_small v hv
  · have h1 : ¬ (32 ≤ v ∧ v ≤ 97) := by omega
    have h2 : ¬ (98 ≤ v ∧ v ≤ 126) := by omega
    rw [if_neg h1, if_neg h2, List.length_eq_zero, List.filter_eq_nil_iff]
    intro b _
    simp only [decide_eq_true_eq]
    omega

theorem remap_loop_single (b : Nat) : V12.remap_loop 1 0 [b] = V12.remapBytes [b] := by
  have h := V12.remap_loop_store [b] []
  simpa using h

theorem secure_memzero_getElem? (v : List Nat) (n i : Nat) :
    (secure_memzero v n)[i]? = if i < n then (v[i]?).map (fun _ => 0) else v[i]? := by
  rw [secure_memzero, secure_memzero_loop_eq, updRange_getElem?]
  by_cases h : i < n
  · rw [if_pos ⟨Nat.zero_le i, by omega⟩, if_pos h]
  · rw [if_neg (by omega), if_neg h]

theorem secure_memzero_eq (v : List Nat) (n : Nat) (hn : n ≤ v.length) :
    secure_memzero v n = List.replicate n 0 ++ v.drop n := by
  apply List.ext_getElem?
  intro i
  rw [secure_memzero_getElem?]
  by_cases h : i < n
  · rw [if_pos h, List.getElem?_append_left (by rw [List.length_replicate]; exact h),
      List.getElem?_replicate, if_pos h, List.getElem?_eq_getElem (by omega)]
    rfl
  · rw [if_neg h, List.getElem?_append_right (by rw [List.length_replicate]; omega),
      List.length_replicate, List.getElem?_drop]
    congr 1
    omega

namespace V12

theorem chunk_of_cases (n : Nat) :
    (n < 4096 ∧ chunk_of n = n) ∨ (4096 ≤ n ∧ chunk_of n = 4096) := by
  unfold chunk_of BUFFER_SIZE
  by_cases h : n < 4096
  · left; exact ⟨h, if_pos h⟩
  · right; exact ⟨by omega, if_neg h⟩

/-- With every `RAND_bytes` call succeeding and every write complete, the
generation loop makes one request per started block of 4096 remaining bytes,
each for between 1 and 4096 bytes, and the sizes add up to `remaining`. -/
theorem gen_loop_chunks (e : Env) (hrand : ∀ k, (e.rand k).isSome = true)
    (hw : e.writesComplete) (s : GenState) :
    (gen_loop e s).2.rand_calls = s.rand_calls + (s.remaining + 4095) / 4096 ∧
    ((gen_loop e s).2.rand_log.map List.length).sum
      = (s.rand_log.map List.length).sum + s.remaining ∧
    ((∀ c ∈ s.rand_log, 1 ≤ c.length ∧ c.length ≤ BUFFER_SIZE) →
      ∀ c ∈ (gen_loop e s).2.rand_log, 1 ≤ c.length ∧ c.length ≤ BUFFER_SIZE) := by
  induction s using gen_loop_induct e with
  | done s h0 hb =>
      rw [gen_loop_done hb]
      refine ⟨?_, ?_, fun h => h⟩
      · show s.rand_calls = _
        omega
      · show (s.rand_log.map List.length).sum = _ + s.remaining
        omega
  | rng s h0 hr hb =>
      have := hrand s.rand_calls
      rw [hr] at this
      cases this
  | wfail s g h0 hr hw' hb =>
      have := hw s.pad.length (chunk_of s.remaining)
      omega
  | next s g h0 hr hw' hb ih =>
      rw [gen_loop_next hb]
      obtain ⟨h1, h2, h3⟩ := ih
      have hc := chunk_of_cases s.remaining
      have hrem : (s.afterIter g).remaining = s.remaining - chunk_of s.remaining := rfl
      have hcalls : (s.afterIter g).rand_calls = s.rand_calls + 1 := rfl
      have hlog : (s.afterIter g).rand_log
          = s.rand_log ++ [randChunk g (chunk_of s.remaining)] := rfl
      refine ⟨?_, ?_, ?_⟩
      · rw [h1, hrem, hcalls]
        omega
      · rw [h2, hrem, hlog, List.map_append, List.sum_append, List.map_singleton,
          List.sum_singleton, randChunk_length]
        omega
      · intro hall
        apply h3
        intro c hc'
        rw [hlog] at hc'
        rcases List.mem_append.mp hc' with hm | hm
        · exact hall c hm
        · rw [List.mem_singleton] at hm
          rw [hm, randChunk_length]
          have hb : BUFFER_SIZE = 4096 := rfl
          omega

end V12

namespace V11

theorem fputc_complete (e : Env) (hw : e.writesComplete) (out : List Nat) (x : Nat) :
    (fwrite e out [x]).1 = out ++ [x] := by
  have h := hw out.length 1
  have hmin : min 1 (e.fwrite_ret out.length 1) = 1 := Nat.min_eq_left h
  simp only [fwrite, List.length_singleton, hmin, List.take_succ_cons, List.take_zero]

/-- With every `fputc` writing its byte, the character loop appends the XOR of
the two streams as far as the shorter one reaches; it takes one character more
from the input when the pad ends first. -/
theorem char_loop_complete (e : Env) (hw : e.writesComplete) (encrypt : Int)
    (input pad : List Nat) (s : CharState) :
    (char_loop e encrypt input pad s).output = s.output ++ xorBytes input pad ∧
    (char_loop e encrypt input pad s).pad_read = s.pad_read + min input.length pad.length ∧
    (char_loop e encrypt input pad s).input_read =
      s.input_read + (if pad.length < input.length then pad.length + 1 else input.length) := by
  induction input generalizing pad s with
  | nil =>
      rw [char_loop]
      simp [xorBytes]
  | cons a input ih =>
      cases pad with
      | nil =>
          rw [char_loop]
          simp [xorBytes]
      | cons b pad =>
          rw [char_loop, ite_self]
          obtain ⟨h1, h2, h3⟩ := ih pad
            { output := (fwrite e s.output [(a ^^^ b) % 256]).1,
              input_read := s.input_read + 1, pad_read := s.pad_read + 1 }
          refine ⟨?_, ?_, ?_⟩
          · rw [h1, fputc_complete e hw]
            simp [xorBytes]
          · rw [h2]
            simp only [List.length_cons]
            omega
          · rw [h3]
            simp only [List.length_cons]
            split <;> split <;> omega

/-- The outcome of `process_file` (v1.1) when the three opens succeed, the output
has a path of its own and every `fputc` writes its byte. -/
theorem char_file_opened (e : Env) (fs : Files) (input_file pad_file output_file : String)
    (encrypt : Int) (P Q : List Nat)
    (hin : fs input_file = some P) (hpad : fs pad_file = some Q)
    (hoi : output_file ≠ input_file) (hop : output_file ≠ pad_file)
    (hout : e.can_create output_file = true) (hw : e.writesComplete) :
    (process_file e fs input_file pad_file output_file encrypt).status = Status.success ∧
    (process_file e fs input_file pad_file output_file encrypt).files output_file
      = some (xorBytes P Q) ∧
    (process_file e fs input_file pad_file output_file encrypt).pad_read
      = min P.length Q.length ∧
    (process_file e fs input_file pad_file output_file encrypt).input_read
      = (if Q.length < P.length then Q.length + 1 else P.length) := by
  have hP : ((fs.write output_file []) input_file).getD [] = P := by
    rw [V12.write_other _ _ _ _ (Ne.symm hoi), hin]; rfl
  have hQ : ((fs.write output_file []) pad_file).getD [] = Q := by
    rw [V12.write_other _ _ _ _ (Ne.symm hop), hpad]; rfl
  obtain ⟨h1, h2, h3⟩ := char_loop_complete e hw encrypt P Q
    { output := [], input_read := 0, pad_read := 0 }
  have h2' : (char_loop e encrypt P Q { output := [], input_read := 0, pad_read := 0 }).pad_read
      = min P.length Q.length := by
    rw [h2]
    show 0 + _ = _
    omega
  have h3' : (char_loop e encrypt P Q
      { output := [], input_read := 0, pad_read := 0 }).input_read
      = (if Q.length < P.length then Q.length + 1 else P.length) := by
    rw [h3]
    show 0 + _ = _
    omega
  unfold process_file
  simp only [hin, hpad, hout, Option.isSome_some, Bool.not_true, Bool.or_self,
    Bool.false_eq_true, if_false, if_true, hP, hQ]
  refine ⟨?_, ?_, h2', h3'⟩
  · trivial
  · simp only [Files.write, if_true, h1, List.nil_append]

end V11

namespace V12

theorem isBytes_take {l : List Nat} (n : Nat) (h : IsBytes l) : IsBytes (l.take n) :=
  fun b hb => h b (List.mem_of_mem_take hb)

end V12

namespace V12

theorem xorBytes_take_add (I Q : List Nat) (a b : Nat) :
    xorBytes (I.take (a + b)) (Q.take (a + b)) =
      xorBytes (I.take a) (Q.take a) ++ xorBytes ((I.drop a).take b) ((Q.drop a).take b) := by
  unfold xorBytes
  rw [← List.take_zipWith, ← List.take_zipWith, ← List.take_zipWith, ← List.drop_zipWith,
    List.take_add]

/-- With every write complete, the loop on a pad rest shorter than the input
rest leaves the output extended by the XOR of the complete 4096-byte chunks the
pad rest covers, and by nothing of the chunk on which the pad runs out. -/
theorem process_loop_exhausted (e : Env) (hw : e.writesComplete) (s : ProcState)
    (h : s.restPad.length < s.restIn.length) :
    (process_loop e s).2.output = s.output ++
      xorBytes (s.restIn.take (4096 * (s.restPad.length / 4096)))
        (s.restPad.take (4096 * (s.restPad.length / 4096))) := by
  revert h
  induction s using process_loop_induct e with
  | done s h0 hb =>
      intro h
      rw [h0] at h
      exact absurd h (Nat.not_lt_zero _)
  | short s h0 hp hb =>
      intro h
      rw [process_loop_fail hb]
      have hcb : s.chunkIn.length ≤ 4096 := chunkIn_length_le_buffer s
      have hz : s.restPad.length / 4096 = 0 := by omega
      rw [hz]
      show s.output = _
      simp [xorBytes]
  | wfail s h0 hp hw' hb =>
      have := hw s.output.length s.chunkIn.length
      omega
  | next s h0 hp hw' hb ih =>
      intro h
      rw [process_loop_next hb]
      have hcl : s.chunkIn.length = min BUFFER_SIZE s.restIn.length := by
        rw [ProcState.chunkIn, List.length_take]
      have hB : BUFFER_SIZE = 4096 := rfl
      have hc : s.chunkIn.length = 4096 := by omega
      have hpl : s.chunkPad.length = 4096 := by rw [chunkPad_length_eq hp, hc]
      have hin : s.afterWrite.restIn = s.restIn.drop 4096 := by
        rw [restIn_afterWrite, hc]
      have hpad : s.afterWrite.restPad = s.restPad.drop 4096 := by
        rw [restPad_afterWrite, hpl]
      have hlt : s.afterWrite.restPad.length < s.afterWrite.restIn.length := by
        rw [hin, hpad, List.length_drop, List.length_drop]
        omega
      rw [ih hlt, hin, hpad, List.length_drop]
      show (s.output ++ xorBytes s.chunkIn s.chunkPad) ++ _ = _
      have hm : 4096 * (s.restPad.length / 4096)
          = 4096 + 4096 * ((s.restPad.length - 4096) / 4096) := by omega
      have hci : s.chunkIn = s.restIn.take 4096 := rfl
      have hcp : s.chunkPad = s.restPad.take 4096 := by
        rw [ProcState.chunkPad, hc]
      rw [hm, xorBytes_take_add, List.append_assoc, hci, hcp]

end V12

/-! ## The claims -/

/-- C1: for every plaintext `P` and pad `Q` with `len Q ≥ len P`, running
`process_file` (v1.2) on `P` with `Q` and then again on the result with the same
pad, read from its start, succeeds both times and yields exactly `P`. -/
theorem c1_round_trip (e e2 : Env) (fs : Files)
    (input_file pad_file cipher_file output_file : String) (encrypt decrypt : Int)
    (P Q : List Nat)
    (hin : fs input_file = some P) (hpad : fs pad_file = some Q)
    (hci : cipher_file ≠ input_file) (hcp : cipher_file ≠ pad_file)
    (hoc : output_file ≠ cipher_file) (hop : output_file ≠ pad_file)
    (he : V12.NoFault e cipher_file) (he2 : V12.NoFault e2 output_file)
    (hP : IsBytes P) (hlen : P.length ≤ Q.length) :
    (V12.process_file e fs input_file pad_file cipher_file encrypt).status = Status.success ∧
    (V12.process_file e2 (V12.process_file e fs input_file pad_file cipher_file encrypt).files
      cipher_file pad_file output_file decrypt).status = Status.success ∧
    (V12.process_file e2 (V12.process_file e fs input_file pad_file cipher_file encrypt).files
      cipher_file pad_file output_file decrypt).files output_file = some P := by
  obtain ⟨b0, b1, -, -, h1⟩ := V12.process_file_opened e fs input_file pad_file cipher_file
    encrypt P Q hin hpad hci hcp he.1 he.2.1 he.2.2.1
  have hst1 := V12.process_loop_status e he.2.2.2 (V12.ProcState.start P Q b0 b1)
  rw [V12.start_restIn, V12.start_restPad, if_pos hlen] at hst1
  have hout1 := (V12.process_loop_success e _ hst1).2.1
  rw [V12.start_restIn, V12.start_restPad] at hout1
  have hC : (V12.process_file e fs input_file pad_file cipher_file encrypt).files cipher_file
      = some (xorBytes P Q) := by
    rw [h1, V12.finish_output, hout1]
    rfl
  have hQ2 : (V12.process_file e fs input_file pad_file cipher_file encrypt).files pad_file
      = some Q := by
    rw [h1, V12.finish_other _ _ _ _ (Ne.symm hcp), V12.write_other _ _ _ _ (Ne.symm hcp), hpad]
  obtain ⟨c0, c1, -, -, h2⟩ := V12.process_file_opened e2 _ cipher_file pad_file output_file
    decrypt (xorBytes P Q) Q hC hQ2 hoc hop he2.1 he2.2.1 he2.2.2.1
  have hlen2 : (xorBytes P Q).length ≤ Q.length := by
    rw [V12.xorBytes_length P Q hlen]; exact hlen
  have hst2 := V12.process_loop_status e2 he2.2.2.2 (V12.ProcState.start (xorBytes P Q) Q c0 c1)
  rw [V12.start_restIn, V12.start_restPad, if_pos hlen2] at hst2
  have hout2 := (V12.process_loop_success e2 _ hst2).2.1
  rw [V12.start_restIn, V12.start_restPad, V12.xorBytes_cancel P Q hP hlen] at hout2
  refine ⟨?_, ?_, ?_⟩
  · rw [h1, V12.finish_status, hst1]
  · rw [h2, V12.finish_status, hst2]
  · rw [h2, V12.finish_output, hout2]
    rfl

/-- Witness of C1: "HelloWorld" encrypted with a 1024-byte pad and decrypted with
the same pad comes back. -/
theorem c1_round_trip_witness :
    (V12.process_file calmEnv (V12.process_file calmEnv demoFiles "plain" "pad" "cipher" 1).files
      "cipher" "pad" "out" 0).files "out" = some helloWorld :=
  (c1_round_trip calmEnv calmEnv demoFiles "plain" "pad" "cipher" "out" 1 0 helloWorld pad1024
    (by simp [demoFiles]) (by simp [demoFiles]) (by decide) (by decide) (by decide) (by decide)
    (calmEnv_noFault _) (calmEnv_noFault _) (by decide)
    (by rw [pad1024, List.length_replicate]; decide)).2.2

/-- C2: for every input `P` and pad `Q` with `len Q ≥ len P`, `process_file`
(v1.2) succeeds and writes an output of exactly `len P` bytes whose byte at every
offset `i` is `P[i] XOR Q[i]`, whatever the lengths are relative to the 4096-byte
chunks. -/
theorem c2_output_is_xor (e : Env) (fs : Files) (input_file pad_file output_file : String)
    (encrypt : Int) (P Q : List Nat)
    (hin : fs input_file = some P) (hpad : fs pad_file = some Q)
    (hoi : output_file ≠ input_file) (hop : output_file ≠ pad_file)
    (he : V12.NoFault e output_file)
    (hP : IsBytes P) (hQ : IsBytes Q) (hlen : P.length ≤ Q.length) :
    (V12.process_file e fs input_file pad_file output_file encrypt).status = Status.success ∧
    ∃ out, (V12.process_file e fs input_file pad_file output_file encrypt).files output_file
        = some out ∧
      out.length = P.length ∧
      ∀ i (hi : i < out.length) (hp : i < P.length) (hq : i < Q.length),
        out[i] = P[i] ^^^ Q[i] := by
  obtain ⟨b0, b1, -, -, h1⟩ := V12.process_file_opened e fs input_file pad_file output_file
    encrypt P Q hin hpad hoi hop he.1 he.2.1 he.2.2.1
  have hst := V12.process_loop_status e he.2.2.2 (V12.ProcState.start P Q b0 b1)
  rw [V12.start_restIn, V12.start_restPad, if_pos hlen] at hst
  have hout := (V12.process_loop_success e _ hst).2.1
  rw [V12.start_restIn, V12.start_restPad] at hout
  refine ⟨by rw [h1, V12.finish_status, hst], xorBytes P Q, ?_, V12.xorBytes_length P Q hlen, ?_⟩
  · rw [h1, V12.finish_output, hout]
    rfl
  · intro i hi hp hq
    have hx := V12.xorBytes_eq_xor P Q hP hQ
    simp only [hx, List.getElem_zipWith]

/-- Witness of C2: a 5000-byte input (two chunks, the second one partial) under a
6000-byte pad. -/
theorem c2_output_is_xor_witness :
    (V12.process_file calmEnv demoFiles "big" "bigpad" "out" 1).status = Status.success :=
  (c2_output_is_xor calmEnv demoFiles "big" "bigpad" "out" 1 input5000 pad6000
    (by simp [demoFiles]) (by simp [demoFiles]) (by decide) (by decide) (calmEnv_noFault _)
    (isBytes_replicate _ _ (by decide)) (isBytes_replicate _ _ (by decide))
    (by rw [input5000, pad6000, List.length_replicate, List.length_replicate]; decide)).1

/-- C3: for every input and pad with `len input > len pad`, `process_file` (v1.2)
never reports success, and when nothing else fails it ends with the
pad-exhausted error. -/
theorem c3_pad_exhausted (e : Env) (fs : Files) (input_file pad_file output_file : String)
    (encrypt : Int) (P Q : List Nat)
    (hin : fs input_file = some P) (hpad : fs pad_file = some Q)
    (hoi : output_file ≠ input_file) (hlen : Q.length < P.length) :
    (V12.process_file e fs input_file pad_file output_file encrypt).status ≠ Status.success ∧
    (V12.NoFault e output_file →
      (V12.process_file e fs input_file pad_file output_file encrypt).status
        = Status.padExhausted) := by
  have hP' : ((fs.write output_file []) input_file).getD [] = P := by
    rw [V12.write_other _ _ _ _ (Ne.symm hoi), hin]; rfl
  have hQ' : (((fs.write output_file []) pad_file).getD []).length ≤ Q.length := by
    by_cases hp : pad_file = output_file
    · subst hp
      simp [Files.write]
    · rw [V12.write_other _ _ _ _ hp, hpad]; exact Nat.le_refl _
  constructor
  · rcases V12.process_file_cases e fs input_file pad_file output_file encrypt with h | h | h
    · rw [h.1]; decide
    · rw [h.1]; decide
    · obtain ⟨b0, b1, -, -, h⟩ := h
      rw [h, V12.finish_status]
      apply V12.process_loop_short
      rw [V12.start_restIn, V12.start_restPad, hP']
      omega
  · intro he
    obtain ⟨b0, hb0, -⟩ := V12.malloc_isSome he.2.1
    obtain ⟨b1, hb1, -⟩ := V12.malloc_isSome he.2.2.1
    rw [V12.process_file_run e fs input_file pad_file output_file encrypt b0 b1 (by simp [hin])
      (by simp [hpad]) he.1 hb0 hb1, V12.finish_status, V12.process_loop_status e he.2.2.2,
      V12.start_restIn, V12.start_restPad, hP', if_neg (by omega)]

/-- Witness of C3: a ten-byte pad cannot cover a twenty-byte input. -/
theorem c3_pad_exhausted_witness :
    (V12.process_file calmEnv demoFiles "twenty" "short" "out" 1).status
      = Status.padExhausted :=
  (c3_pad_exhausted calmEnv demoFiles "twenty" "short" "out" 1 input20 pad10
    (by simp [demoFiles]) (by simp [demoFiles]) (by decide)
    (by rw [input20, List.length_replicate]; decide)).2 (calmEnv_noFault _)

/-- C4: whatever length is requested and whatever bytes the random source
returns, `generate_random_pad` (v1.2 and v1.1) either writes nothing at all
(the length is refused or the pad file cannot be opened) or leaves a pad file
whose every byte lies in the closed range [32,126]. -/
theorem c4_alphabet (e : Env) (fs : Files) (pad_file : String) (length : Nat) :
    ((((V12.generate_random_pad e fs pad_file length).status = Status.invalidLength ∨
        (V12.generate_random_pad e fs pad_file length).status = Status.openError) ∧
        (V12.generate_random_pad e fs pad_file length).files = fs) ∨
      ∃ out, (V12.generate_random_pad e fs pad_file length).files pad_file = some out ∧
        ∀ b ∈ out, 32 ≤ b ∧ b ≤ 126) ∧
    (((V11.generate_random_pad e fs pad_file length).status = Status.openError ∧
        (V11.generate_random_pad e fs pad_file length).files = fs) ∨
      ∃ out, (V11.generate_random_pad e fs pad_file length).files pad_file = some out ∧
        ∀ b ∈ out, 32 ≤ b ∧ b ≤ 126) := by
  constructor
  · by_cases hlen : length < MIN_PAD_SIZE
    · left
      unfold V12.generate_random_pad
      rw [if_pos hlen]
      exact ⟨Or.inl rfl, rfl⟩
    · by_cases hc : e.can_create pad_file = true
      · right
        cases hb : malloc e 0 BUFFER_SIZE with
        | none =>
            refine ⟨[], ?_, by simp⟩
            unfold V12.generate_random_pad
            rw [if_neg hlen]
            simp [hc, hb, Files.write]
        | some b =>
            rw [V12.generate_run e fs pad_file length b (by omega) hc hb]
            refine ⟨_, V12.genFinish_file _ _ _, ?_⟩
            apply V12.gen_loop_printable
            intro x hx
            cases hx
      · left
        unfold V12.generate_random_pad
        rw [if_neg hlen]
        simp only [hc, not_false_eq_true, if_true]
        exact ⟨Or.inr rfl, rfl⟩
  · by_cases hc : e.can_create pad_file = true
    · right
      cases hr : e.rand 0 with
      | none =>
          refine ⟨[], ?_, by simp⟩
          unfold V11.generate_random_pad
          simp [hc, hr, Files.write]
      | some g =>
          refine ⟨V11.fputc_loop e ((List.range length).map (fun i => g i % 256)) length 0 [],
            ?_, ?_⟩
          · unfold V11.generate_random_pad
            simp [hc, hr, Files.write]
          · apply V11.fputc_loop_printable
            intro x hx
            cases hx
    · left
      unfold V11.generate_random_pad
      simp only [hc, not_false_eq_true, if_true]
      exact ⟨rfl, rfl⟩

/-- C5: for every length of at least 1024, when the random source and all writes
succeed, `generate_random_pad` (v1.2) succeeds and leaves a file of exactly
`length` bytes whose byte at each offset is `(r[i] mod 95) + 32`, where `r` is the
concatenation, in order, of the chunks the random source returned; the `k`-th of
these chunks is what the `k`-th `RAND_bytes` call delivered. -/
theorem c5_generate_ok (e : Env) (fs : Files) (pad_file : String) (length : Nat)
    (hlen : MIN_PAD_SIZE ≤ length) (he : V12.GenNoFault e pad_file) :
    (V12.generate_random_pad e fs pad_file length).status = Status.success ∧
    (∃ out, (V12.generate_random_pad e fs pad_file length).files pad_file = some out ∧
      out.length = length ∧
      out = List.map (fun r => r % 95 + 32)
        (V12.generate_random_pad e fs pad_file length).rand_log.flatten) ∧
    (∀ k (hk : k < (V12.generate_random_pad e fs pad_file length).rand_log.length),
      ∃ g, e.rand k = some g ∧
        ((V12.generate_random_pad e fs pad_file length).rand_log[k]) =
          (List.range ((V12.generate_random_pad e fs pad_file length).rand_log[k]).length).map
            (fun i => g i % 256)) := by
  obtain ⟨b, hb, -⟩ := V12.malloc_isSome he.2.1
  have hrun := V12.generate_run e fs pad_file length b hlen he.1 hb
  obtain ⟨h1, h2, h3, h4⟩ := V12.gen_loop_ok e he.2.2.1 he.2.2.2 (V12.genStart length b)
  refine ⟨?_, ⟨(V12.gen_loop e (V12.genStart length b)).2.pad, ?_, ?_, ?_⟩, ?_⟩
  · rw [hrun, V12.genFinish_status, h1]
  · rw [hrun, V12.genFinish_file]
  · rw [h2]
    show 0 + length = length
    omega
  · rw [hrun, V12.genFinish_rand_log]
    exact h3 rfl
  · rw [hrun, V12.genFinish_rand_log]
    exact (h4 ⟨rfl, fun k hk => absurd hk (Nat.not_lt_zero k)⟩).2

/-- Witness of C5: generating the default 65536-byte pad in an environment where
nothing fails. -/
theorem c5_generate_ok_witness :
    (V12.generate_random_pad calmEnv demoFiles "newpad" PAD_SIZE).status = Status.success :=
  (c5_generate_ok calmEnv demoFiles "newpad" PAD_SIZE (by decide)
    ⟨rfl, rfl, fun _ => rfl, fun _ n => Nat.le_refl n⟩).1

/-- C6: for every length below 1024, `generate_random_pad` (v1.2) fails with the
invalid-length error without a single `fopen`, `malloc` or `RAND_bytes` call,
closing and releasing nothing, and leaves the file system as it was. -/
theorem c6_min_length (e : Env) (fs : Files) (pad_file : String) (length : Nat)
    (hlen : length < MIN_PAD_SIZE) :
    (V12.generate_random_pad e fs pad_file length).status = Status.invalidLength ∧
    (V12.generate_random_pad e fs pad_file length).files = fs ∧
    (V12.generate_random_pad e fs pad_file length).fopens = 0 ∧
    (V12.generate_random_pad e fs pad_file length).mallocs = 0 ∧
    (V12.generate_random_pad e fs pad_file length).rand_calls = 0 ∧
    (V12.generate_random_pad e fs pad_file length).rand_log = [] ∧
    (V12.generate_random_pad e fs pad_file length).released = [] ∧
    (V12.generate_random_pad e fs pad_file length).closed = [] := by
  unfold V12.generate_random_pad
  rw [if_pos hlen]
  exact ⟨rfl, rfl, rfl, rfl, rfl, rfl, rfl, rfl⟩

/-- Witness of C6: a request for 1023 bytes is refused and the file system,
including an existing file at the pad path, is untouched. -/
theorem c6_min_length_witness :
    (V12.generate_random_pad calmEnv demoFiles "pad" 1023).status = Status.invalidLength ∧
    (V12.generate_random_pad calmEnv demoFiles "pad" 1023).files = demoFiles :=
  ⟨(c6_min_length calmEnv demoFiles "pad" 1023 (by decide)).1,
   (c6_min_length calmEnv demoFiles "pad" 1023 (by decide)).2.1⟩

/-- C7, as the code has it: on every exit of `generate_random_pad` (v1.2) the
buffer, if one was allocated, is released exactly once with all of its 4096
bytes zero; on every exit of `process_file` (v1.2) other than the
allocation-failure exit, nothing is released (an open failed) or both buffers are
released, each with all of its 4096 bytes zero; on the allocation-failure exit
whatever was allocated is released as `malloc` returned it. -/
theorem c7_buffers_wiped (e : Env) (fs : Files) (gen_file : String) (length : Nat)
    (input_file pad_file output_file : String) (encrypt : Int) :
    ((((V12.generate_random_pad e fs gen_file length).status = Status.invalidLength ∨
          (V12.generate_random_pad e fs gen_file length).status = Status.openError ∨
          (V12.generate_random_pad e fs gen_file length).status = Status.allocError) ∧
        (V12.generate_random_pad e fs gen_file length).released = []) ∨
      (((V12.generate_random_pad e fs gen_file length).status = Status.success ∨
          (V12.generate_random_pad e fs gen_file length).status = Status.rngError ∨
          (V12.generate_random_pad e fs gen_file length).status = Status.writeError) ∧
        (V12.generate_random_pad e fs gen_file length).released = [zeroBuffer])) ∧
    ((V12.process_file e fs input_file pad_file output_file encrypt).status
        ≠ Status.allocError →
      ((V12.process_file e fs input_file pad_file output_file encrypt).status
          = Status.openError ∧
        (V12.process_file e fs input_file pad_file output_file encrypt).released = []) ∨
      (V12.process_file e fs input_file pad_file output_file encrypt).released
        = [zeroBuffer, zeroBuffer]) ∧
    ((V12.process_file e fs input_file pad_file output_file encrypt).status
        = Status.allocError →
      (V12.process_file e fs input_file pad_file output_file encrypt).released
        = (malloc e 0 BUFFER_SIZE).toList ++ (malloc e 1 BUFFER_SIZE).toList) := by
  refine ⟨V12.generate_released e fs gen_file length, ?_, ?_⟩
  · intro hne
    rcases V12.process_file_cases e fs input_file pad_file output_file encrypt with h | h | h
    · exact Or.inl h
    · exact absurd h.1 hne
    · obtain ⟨b0, b1, h0, h1, h⟩ := h
      right
      rw [h, V12.finish_released _ _ _ _ _ _ _ h0 h1]
  · intro hst
    rcases V12.process_file_cases e fs input_file pad_file output_file encrypt with h | h | h
    · rw [h.1] at hst
      cases hst
    · exact h.2
    · obtain ⟨b0, b1, -, -, h⟩ := h
      rw [h, V12.finish_status] at hst
      rcases V12.process_loop_status_mem e (V12.ProcState.start
        (((fs.write output_file []) input_file).getD [])
        (((fs.write output_file []) pad_file).getD []) b0 b1) with hm | hm | hm <;>
        rw [hm] at hst <;> cases hst

/-- Witness of C7: when the ten-byte pad runs out under the twenty-byte input,
the buffers released were wiped. -/
theorem c7_buffers_wiped_witness :
    ((V12.process_file calmEnv demoFiles "twenty" "short" "out" 1).status = Status.openError ∧
      (V12.process_file calmEnv demoFiles "twenty" "short" "out" 1).released = []) ∨
    (V12.process_file calmEnv demoFiles "twenty" "short" "out" 1).released
      = [zeroBuffer, zeroBuffer] :=
  (c7_buffers_wiped calmEnv demoFiles "newpad" PAD_SIZE "twenty" "short" "out" 1).2.1
    (V12.process_file_heap_ok calmEnv demoFiles "twenty" "short" "out" 1 rfl rfl)

/-- Counterexample to C7 as stated: when the first allocation of `process_file`
succeeds and the second fails, the first buffer is released without being wiped,
holding the 4096 bytes `malloc` returned it with. -/
theorem c7_unwiped_release :
    (V12.process_file stingyEnv demoFiles "plain" "pad" "out" 1).status = Status.allocError ∧
    (V12.process_file stingyEnv demoFiles "plain" "pad" "out" 1).released
      = [List.replicate BUFFER_SIZE 170] ∧
    ¬ (∀ b ∈ (V12.process_file stingyEnv demoFiles "plain" "pad" "out" 1).released,
        b = zeroBuffer) := by
  have hm0 : malloc stingyEnv 0 BUFFER_SIZE = some (List.replicate BUFFER_SIZE 170) := by
    have : malloc stingyEnv 0 BUFFER_SIZE
        = some ((List.range BUFFER_SIZE).map (fun _ => 170 % 256)) := rfl
    rw [this, List.map_const', List.length_range]
  have hm1 : malloc stingyEnv 1 BUFFER_SIZE = none := rfl
  have h := V12.process_file_alloc_fail stingyEnv demoFiles "plain" "pad" "out" 1 rfl rfl rfl
    (Or.inr hm1)
  rw [hm0, hm1] at h
  have hrel : (V12.process_file stingyEnv demoFiles "plain" "pad" "out" 1).released
      = [List.replicate BUFFER_SIZE 170] := h.2
  refine ⟨h.1, hrel, ?_⟩
  rw [hrel]
  intro hall
  have h1 := hall _ (List.mem_singleton.mpr rfl)
  have h2 : (List.replicate BUFFER_SIZE 170)[0]? = zeroBuffer[0]? := by rw [h1]
  rw [zeroBuffer, List.getElem?_replicate, List.getElem?_replicate] at h2
  have hb : 0 < BUFFER_SIZE := by decide
  rw [if_pos hb, if_pos hb] at h2
  cases h2

/-- C8: for every pad, an empty one included, `process_file` (v1.2) on a
zero-length input succeeds, writes a zero-length output and reads zero bytes from
the pad. -/
theorem c8_empty_input (e : Env) (fs : Files) (input_file pad_file output_file : String)
    (encrypt : Int) (Q : List Nat)
    (hin : fs input_file = some []) (hpad : fs pad_file = some Q)
    (hout : e.can_create output_file = true)
    (h0 : (e.heap 0).isSome = true) (h1 : (e.heap 1).isSome = true) :
    (V12.process_file e fs input_file pad_file output_file encrypt).status = Status.success ∧
    (V12.process_file e fs input_file pad_file output_file encrypt).files output_file
      = some [] ∧
    (V12.process_file e fs input_file pad_file output_file encrypt).pad_read = 0 ∧
    (V12.process_file e fs input_file pad_file output_file encrypt).input_read = 0 := by
  obtain ⟨b0, hb0, -⟩ := V12.malloc_isSome h0
  obtain ⟨b1, hb1, -⟩ := V12.malloc_isSome h1
  have hP : ((fs.write output_file []) input_file).getD [] = [] := by
    by_cases hi : input_file = output_file
    · subst hi
      simp [Files.write]
    · rw [V12.write_other _ _ _ _ hi, hin]; rfl
  have hrun := V12.process_file_run e fs input_file pad_file output_file encrypt b0 b1
    (by simp [hin]) (by simp [hpad]) hout hb0 hb1
  rw [hP] at hrun
  have hloop := V12.process_loop_done (e := e)
    (V12.loop_body_done (s := V12.ProcState.start []
      (((fs.write output_file []) pad_file).getD []) b0 b1) rfl)
  rw [hrun, hloop]
  refine ⟨rfl, ?_, rfl, rfl⟩
  simp [V12.finish, V12.wipe_and_close, V12.ProcState.start, Files.write]

/-- Witness of C8: the empty file encrypted under the empty pad. -/
theorem c8_empty_input_witness :
    (V12.process_file calmEnv demoFiles "empty" "empty" "out" 1).status = Status.success ∧
    (V12.process_file calmEnv demoFiles "empty" "empty" "out" 1).files "out" = some [] ∧
    (V12.process_file calmEnv demoFiles "empty" "empty" "out" 1).pad_read = 0 ∧
    (V12.process_file calmEnv demoFiles "empty" "empty" "out" 1).input_read = 0 :=
  c8_empty_input calmEnv demoFiles "empty" "empty" "out" 1 [] rfl rfl rfl rfl rfl

/-- C9: in every run of `process_file` (v1.2), whatever the environment does, at
the start of every loop iteration the number of pad bytes read so far equals the
number of input bytes read so far; and in every run that succeeds the total
number of pad bytes read is the length of the input. -/
theorem c9_lock_step (e : Env) :
    (∀ (P Q b0 b1 : List Nat) (s : V12.ProcState),
      V12.IterStart e (V12.ProcState.start P Q b0 b1) s → s.pad.pos = s.input.pos) ∧
    (∀ (fs : Files) (input_file pad_file output_file : String) (encrypt : Int) (P : List Nat),
      fs input_file = some P → output_file ≠ input_file →
      (V12.process_file e fs input_file pad_file output_file encrypt).status = Status.success →
      (V12.process_file e fs input_file pad_file output_file encrypt).pad_read = P.length ∧
      (V12.process_file e fs input_file pad_file output_file encrypt).input_read = P.length) := by
  constructor
  · intro P Q b0 b1 s h
    have := V12.iterStart_pos e _ s h
    exact this
  · intro fs input_file pad_file output_file encrypt P hin hoi hst
    have hP : ((fs.write output_file []) input_file).getD [] = P := by
      rw [V12.write_other _ _ _ _ (Ne.symm hoi), hin]; rfl
    rcases V12.process_file_cases e fs input_file pad_file output_file encrypt with h | h | h
    · rw [h.1] at hst; cases hst
    · rw [h.1] at hst; cases hst
    · obtain ⟨b0, b1, -, -, h⟩ := h
      rw [h, V12.finish_status] at hst
      rw [hP] at h hst
      obtain ⟨-, -, hi, hp, -, -⟩ := V12.process_loop_success e _ hst
      rw [V12.start_restIn] at hi hp
      rw [h, V12.finish_pad_read, V12.finish_input_read, hi, hp]
      constructor
      · show 0 + P.length = P.length
        omega
      · show 0 + P.length = P.length
        omega

/-- Witness of C9: on the 5000-byte input under the 6000-byte pad, the second
iteration starts with 4096 bytes read from each stream, and the run succeeds
having read 5000 bytes of each. -/
theorem c9_lock_step_witness :
    (V12.ProcState.start input5000 pad6000 [] []).afterWrite.pad.pos =
      (V12.ProcState.start input5000 pad6000 [] []).afterWrite.input.pos ∧
    (V12.process_file calmEnv demoFiles "big" "bigpad" "out" 1).pad_read = input5000.length ∧
    (V12.process_file calmEnv demoFiles "big" "bigpad" "out" 1).input_read = input5000.length :=
  ⟨(c9_lock_step calmEnv).1 input5000 pad6000 [] [] _
      (V12.IterStart.step V12.IterStart.first
        (V12.loop_body_next
          (by
            rw [V12.start_restIn, input5000]
            exact List.ne_nil_of_length_pos (by rw [List.length_replicate]; decide))
          (by
            have h := V12.chunkIn_length_le_buffer (V12.ProcState.start input5000 pad6000 [] [])
            have hq : (V12.ProcState.start input5000 pad6000 [] []).restPad.length = 6000 := by
              rw [V12.start_restPad, pad6000, List.length_replicate]
            have hb : BUFFER_SIZE = 4096 := rfl
            omega)
          (Nat.le_refl _))),
    (c9_lock_step calmEnv).2 demoFiles "big" "bigpad" "out" 1 input5000 rfl (by decide)
      (V12.process_file_noFault calmEnv demoFiles "big" "bigpad" "out" 1 input5000 pad6000 rfl rfl
        (by decide) (by decide) (calmEnv_noFault _)
        (by rw [input5000, pad6000, List.length_replicate, List.length_replicate]; decide)).1⟩

/-- C10: for every input `P` and any two pads that are both at least `len P`
long and agree on their first `len P` bytes, `process_file` (v1.2) succeeds on
both and writes the same output: a pad longer than the input is not an error and
its trailing bytes do not influence the result. -/
theorem c10_trailing_pad_unread (e e2 : Env) (fs : Files)
    (input_file pad_file pad_file2 output_file : String) (encrypt encrypt2 : Int)
    (P Q Q2 : List Nat)
    (hin : fs input_file = some P) (hpad : fs pad_file = some Q) (hpad2 : fs pad_file2 = some Q2)
    (hoi : output_file ≠ input_file) (hop : output_file ≠ pad_file)
    (hop2 : output_file ≠ pad_file2)
    (he : V12.NoFault e output_file) (he2 : V12.NoFault e2 output_file)
    (hlen : P.length ≤ Q.length) (hlen2 : P.length ≤ Q2.length)
    (hagree : Q.take P.length = Q2.take P.length) :
    (V12.process_file e fs input_file pad_file output_file encrypt).status = Status.success ∧
    (V12.process_file e2 fs input_file pad_file2 output_file encrypt2).status
      = Status.success ∧
    (V12.process_file e fs input_file pad_file output_file encrypt).files output_file =
      (V12.process_file e2 fs input_file pad_file2 output_file encrypt2).files output_file ∧
    (V12.process_file e fs input_file pad_file output_file encrypt).pad_read = P.length ∧
    (V12.process_file e2 fs input_file pad_file2 output_file encrypt2).pad_read = P.length := by
  obtain ⟨h1, h2, h3⟩ := V12.process_file_noFault e fs input_file pad_file output_file encrypt
    P Q hin hpad hoi hop he hlen
  obtain ⟨k1, k2, k3⟩ := V12.process_file_noFault e2 fs input_file pad_file2 output_file
    encrypt2 P Q2 hin hpad2 hoi hop2 he2 hlen2
  refine ⟨h1, k1, ?_, h3, k3⟩
  rw [h2, k2, V12.xorBytes_take P Q, V12.xorBytes_take P Q2, hagree]

/-- Witness of C10: "HelloWorld" under the 1024-byte pad and under the 6000-byte
pad, which agree on their first ten bytes. -/
theorem c10_trailing_pad_unread_witness :
    (V12.process_file calmEnv demoFiles "plain" "pad" "out" 1).files "out" =
      (V12.process_file calmEnv demoFiles "plain" "bigpad" "out" 1).files "out" :=
  (c10_trailing_pad_unread calmEnv calmEnv demoFiles "plain" "pad" "bigpad" "out" 1 1
    helloWorld pad1024 pad6000 rfl rfl rfl (by decide) (by decide) (by decide)
    (calmEnv_noFault _) (calmEnv_noFault _)
    (by rw [pad1024, List.length_replicate]; decide)
    (by rw [pad6000, List.length_replicate]; decide)
    (by rw [pad1024, pad6000, List.take_replicate, List.take_replicate]; rfl)).2.2.1

/-- C11: for every input, pad and file-system state and every behaviour of the
environment, `process_file` called with `encrypt = 1` and with `encrypt = 0` (or
any other two values of the flag) has the same outcome, output bytes and exit
status included, in version 1.2 and in version 1.1. -/
theorem c11_direction_flag (e : Env) (fs : Files) (input_file pad_file output_file : String)
    (encrypt encrypt2 : Int) :
    V12.process_file e fs input_file pad_file output_file 1
      = V12.process_file e fs input_file pad_file output_file 0 ∧
    V11.process_file e fs input_file pad_file output_file 1
      = V11.process_file e fs input_file pad_file output_file 0 ∧
    V12.process_file e fs input_file pad_file output_file encrypt
      = V12.process_file e fs input_file pad_file output_file encrypt2 ∧
    V11.process_file e fs input_file pad_file output_file encrypt
      = V11.process_file e fs input_file pad_file output_file encrypt2 := by
  have h11 : ∀ a b : Int, V11.process_file e fs input_file pad_file output_file a
      = V11.process_file e fs input_file pad_file output_file b := by
    intro a b
    unfold V11.process_file
    simp only [V11.char_loop_flag e a b]
  exact ⟨rfl, h11 1 0, rfl, h11 encrypt encrypt2⟩

/-- C12: on every exit of `process_file` (v1.2), success or failure and whatever
the environment does, each of the input, pad and output streams has been closed
exactly once if it was opened and not at all otherwise; and when any of the
three opens fails the call ends with the open error. -/
theorem c12_streams_closed (e : Env) (fs : Files) (input_file pad_file output_file : String)
    (encrypt : Int) :
    (V12.process_file e fs input_file pad_file output_file encrypt).closed.count Handle.input
      = (if (fs input_file).isSome = true then 1 else 0) ∧
    (V12.process_file e fs input_file pad_file output_file encrypt).closed.count Handle.pad
      = (if (fs pad_file).isSome = true then 1 else 0) ∧
    (V12.process_file e fs input_file pad_file output_file encrypt).closed.count Handle.output
      = (if e.can_create output_file = true then 1 else 0) ∧
    (¬ ((fs input_file).isSome = true ∧ (fs pad_file).isSome = true ∧
        e.can_create output_file = true) →
      (V12.process_file e fs input_file pad_file output_file encrypt).status
        = Status.openError) := by
  rw [V12.process_file_closed]
  refine ⟨?_, ?_, ?_, fun h =>
    (V12.process_file_open_fail e fs input_file pad_file output_file encrypt h).1⟩
  · by_cases h1 : (fs input_file).isSome = true <;>
      by_cases h2 : (fs pad_file).isSome = true <;>
      by_cases h3 : e.can_create output_file = true <;>
      simp [h1, h2, h3]
  · by_cases h1 : (fs input_file).isSome = true <;>
      by_cases h2 : (fs pad_file).isSome = true <;>
      by_cases h3 : e.can_create output_file = true <;>
      simp [h1, h2, h3]
  · by_cases h1 : (fs input_file).isSome = true <;>
      by_cases h2 : (fs pad_file).isSome = true <;>
      by_cases h3 : e.can_create output_file = true <;>
      simp [h1, h2, h3]

/-- Witness of C12: with the input file missing, the pad and output streams are
closed once each, the input stream never, and the call ends with the open error. -/
theorem c12_streams_closed_witness :
    (V12.process_file calmEnv demoFiles "missing" "pad" "out" 1).status = Status.openError :=
  (c12_streams_closed calmEnv demoFiles "missing" "pad" "out" 1).2.2.2
    (fun h => Bool.noConfusion h.1)

/-- C13: for every argument vector, `main` (v1.2) calls `generate_random_pad` with
`argv[2]` and length 65536 exactly when there are 3 arguments and `argv[1]` is
"-g", calls `process_file` with `argv[2..4]` exactly when there are 5 arguments and
`argv[1]` is "-e" (flag 1) or "-d" (flag 0), and for every other argument vector
makes no call, leaves the file system as it was and returns the failure status;
the default length 65536 is never refused by the minimum-length check. -/
theorem c13_main_dispatch (e : Env) (fs : Files) (argv : List String) :
    (V12.main e fs argv).invoked =
      (if argv.length = 3 ∧ argv.getD 1 "" = "-g" then
        V12.Invocation.generate (argv.getD 2 "") 65536
      else if argv.length = 5 ∧ (argv.getD 1 "" = "-e" ∨ argv.getD 1 "" = "-d") then
        V12.Invocation.process (argv.getD 2 "") (argv.getD 3 "") (argv.getD 4 "")
          (if argv.getD 1 "" = "-e" then 1 else 0)
      else V12.Invocation.usage) ∧
    (V12.main e fs argv).outcome =
      (if argv.length = 3 ∧ argv.getD 1 "" = "-g" then
        some (V12.generate_random_pad e fs (argv.getD 2 "") 65536)
      else if argv.length = 5 ∧ (argv.getD 1 "" = "-e" ∨ argv.getD 1 "" = "-d") then
        some (V12.process_file e fs (argv.getD 2 "") (argv.getD 3 "") (argv.getD 4 "")
          (if argv.getD 1 "" = "-e" then 1 else 0))
      else none) ∧
    ((V12.main e fs argv).invoked = V12.Invocation.usage →
      (V12.main e fs argv).outcome = none ∧ (V12.main e fs argv).files = fs ∧
      (V12.main e fs argv).exit_code = V12.EXIT_FAILURE) ∧
    MIN_PAD_SIZE ≤ 65536 ∧
    (∀ pad_file, (V12.generate_random_pad e fs pad_file 65536).status
      ≠ Status.invalidLength) := by
  refine ⟨?_, ?_, ?_, by decide, fun pad_file =>
    V12.generate_invalid_length e fs pad_file 65536 (by decide)⟩
  · by_cases hg : argv.length = 3 ∧ argv.getD 1 "" = "-g"
    · rw [V12.main_generate e fs argv hg, if_pos hg]
      rfl
    · by_cases he : argv.length = 5 ∧ argv.getD 1 "" = "-e"
      · rw [V12.main_encrypt e fs argv hg he, if_neg hg, if_pos ⟨he.1, Or.inl he.2⟩,
          if_pos he.2]
        rfl
      · by_cases hd : argv.length = 5 ∧ argv.getD 1 "" = "-d"
        · have hne : ¬ argv.getD 1 "" = "-e" := by rw [hd.2]; decide
          rw [V12.main_decrypt e fs argv hg he hd, if_neg hg, if_pos ⟨hd.1, Or.inr hd.2⟩,
            if_neg hne]
          rfl
        · have hed : ¬ (argv.length = 5 ∧ (argv.getD 1 "" = "-e" ∨ argv.getD 1 "" = "-d")) := by
            rintro ⟨h5, h | h⟩
            · exact he ⟨h5, h⟩
            · exact hd ⟨h5, h⟩
          rw [V12.main_usage e fs argv hg he hd, if_neg hg, if_neg hed]
  · by_cases hg : argv.length = 3 ∧ argv.getD 1 "" = "-g"
    · rw [V12.main_generate e fs argv hg, if_pos hg]
      rfl
    · by_cases he : argv.length = 5 ∧ argv.getD 1 "" = "-e"
      · rw [V12.main_encrypt e fs argv hg he, if_neg hg, if_pos ⟨he.1, Or.inl he.2⟩,
          if_pos he.2]
        rfl
      · by_cases hd : argv.length = 5 ∧ argv.getD 1 "" = "-d"
        · have hne : ¬ argv.getD 1 "" = "-e" := by rw [hd.2]; decide
          rw [V12.main_decrypt e fs argv hg he hd, if_neg hg, if_pos ⟨hd.1, Or.inr hd.2⟩,
            if_neg hne]
          rfl
        · have hed : ¬ (argv.length = 5 ∧ (argv.getD 1 "" = "-e" ∨ argv.getD 1 "" = "-d")) := by
            rintro ⟨h5, h | h⟩
            · exact he ⟨h5, h⟩
            · exact hd ⟨h5, h⟩
          rw [V12.main_usage e fs argv hg he hd, if_neg hg, if_neg hed]
  · by_cases hg : argv.length = 3 ∧ argv.getD 1 "" = "-g"
    · rw [V12.main_generate e fs argv hg]
      intro h
      cases h
    · by_cases he : argv.length = 5 ∧ argv.getD 1 "" = "-e"
      · rw [V12.main_encrypt e fs argv hg he]
        intro h
        cases h
      · by_cases hd : argv.length = 5 ∧ argv.getD 1 "" = "-d"
        · rw [V12.main_decrypt e fs argv hg he hd]
          intro h
          cases h
        · rw [V12.main_usage e fs argv hg he hd]
          intro _
          exact ⟨rfl, rfl, rfl⟩

/-- Witness of C13: an unknown option makes no call, leaves the files alone and
returns the failure status. -/
theorem c13_main_dispatch_witness :
    (V12.main calmEnv demoFiles ["64k", "-x", "plain", "pad", "out"]).outcome = none ∧
    (V12.main calmEnv demoFiles ["64k", "-x", "plain", "pad", "out"]).files = demoFiles ∧
    (V12.main calmEnv demoFiles ["64k", "-x", "plain", "pad", "out"]).exit_code
      = V12.EXIT_FAILURE :=
  (c13_main_dispatch calmEnv demoFiles ["64k", "-x", "plain", "pad", "out"]).2.2.1 rfl

/-- C20: in `process_file` (v1.2) the output file is opened for truncating write
whether or not the input and pad opens succeeded: whenever the input or the pad
cannot be opened and the output path can be, the call ends with the open error
and leaves the output file empty, every other file being as it was. -/
theorem c20_output_truncated (e : Env) (fs : Files) (input_file pad_file output_file : String)
    (encrypt : Int) (hfail : fs input_file = none ∨ fs pad_file = none)
    (hout : e.can_create output_file = true) :
    (V12.process_file e fs input_file pad_file output_file encrypt).status
      = Status.openError ∧
    (V12.process_file e fs input_file pad_file output_file encrypt).files output_file
      = some [] ∧
    (∀ p, p ≠ output_file →
      (V12.process_file e fs input_file pad_file output_file encrypt).files p = fs p) := by
  have hopen : ¬ ((fs input_file).isSome = true ∧ (fs pad_file).isSome = true ∧
      e.can_create output_file = true) := by
    rintro ⟨h1, h2, -⟩
    rcases hfail with h | h
    · rw [h] at h1; cases h1
    · rw [h] at h2; cases h2
  rw [V12.process_file_open_fail_eq e fs input_file pad_file output_file encrypt hopen]
  refine ⟨rfl, ?_, ?_⟩
  · simp [hout, Files.write]
  · intro p hp
    simp [hout, Files.write, hp]

/-- Witness of C20: with the input file missing and the output path naming the
existing ten-byte file `plain`, the call ends with the open error and `plain`
is left empty. -/
theorem c20_output_truncated_witness :
    demoFiles "plain" = some helloWorld ∧ helloWorld ≠ [] ∧
    (V12.process_file calmEnv demoFiles "missing" "pad" "plain" 1).status
      = Status.openError ∧
    (V12.process_file calmEnv demoFiles "missing" "pad" "plain" 1).files "plain" = some [] :=
  ⟨rfl, by decide,
    (c20_output_truncated calmEnv demoFiles "missing" "pad" "plain" 1 (Or.inl rfl) rfl).1,
    (c20_output_truncated calmEnv demoFiles "missing" "pad" "plain" 1 (Or.inl rfl) rfl).2.1⟩

/-- C14: the remap `b ↦ (b mod 95) + 32` over the 256 raw byte values is not
uniform: an output value from 32 to 97 has exactly 3 preimages, one from 98 to
126 exactly 2, any other value none; every value `32 + k` with `k < 95` is reached
(from the raw byte `k`); and the remap loop of `generate_random_pad` applies this
map to a byte. -/
theorem c14_remap_bias (v : Nat) (k : Fin 95) (b : Nat) :
    (preimages v).length =
      (if 32 ≤ v ∧ v ≤ 97 then 3 else if 98 ≤ v ∧ v ≤ 126 then 2 else 0) ∧
    (k.val ∈ preimages (32 + k.val)) ∧
    V12.remap_loop 1 0 [b] = V12.remapBytes [b] ∧
    V12.remapBytes [b] = [b % 95 + 32] := by
  refine ⟨preimages_count v, ?_, remap_loop_single b, rfl⟩
  have hk := k.isLt
  rw [preimages, List.mem_filter, List.mem_range]
  refine ⟨by omega, ?_⟩
  have : k.val % 95 = k.val := Nat.mod_eq_of_lt hk
  simp [V12.remapBytes, this, Nat.add_comm]

/-- C16: for every buffer and every `n` not exceeding its size, `secure_memzero(v, n)`
(a total function: the loop ends after `n` steps) keeps the size of the buffer,
sets each of the first `n` bytes to zero and leaves every byte at offset `n` or
beyond unchanged; with `n = 0` it changes nothing. -/
theorem c16_secure_memzero (v : List Nat) (n : Nat) (hn : n ≤ v.length) :
    (secure_memzero v n).length = v.length ∧
    (∀ i, i < n → (secure_memzero v n)[i]? = some 0) ∧
    (∀ i, n ≤ i → (secure_memzero v n)[i]? = v[i]?) ∧
    secure_memzero v n = List.replicate n 0 ++ v.drop n ∧
    secure_memzero v 0 = v := by
  refine ⟨V12.secure_memzero_length v n, ?_, ?_, secure_memzero_eq v n hn, rfl⟩
  · intro i hi
    rw [secure_memzero_getElem?, if_pos hi, List.getElem?_eq_getElem (by omega)]
    rfl
  · intro i hi
    rw [secure_memzero_getElem?, if_neg (by omega)]

/-- Witness of C16: wiping the first two bytes of a five-byte buffer. -/
theorem c16_secure_memzero_witness :
    secure_memzero [1, 2, 3, 4, 5] 2 = List.replicate 2 0 ++ List.drop 2 [1, 2, 3, 4, 5] :=
  (c16_secure_memzero [1, 2, 3, 4, 5] 2 (by decide)).2.2.2.1

/-- C17: for every length of at least 1024, when the random source and the writes
do not fail, the generation loop of `generate_random_pad` (v1.2, a total
function) ends after exactly `ceil(length / 4096)` requests to the random source,
every requested chunk has between 1 and 4096 bytes, the size of the working
buffer, and the chunk sizes add up to `length`. -/
theorem c17_generation_chunks (e : Env) (fs : Files) (pad_file : String) (length : Nat)
    (hlen : MIN_PAD_SIZE ≤ length) (he : V12.GenNoFault e pad_file) :
    (V12.generate_random_pad e fs pad_file length).rand_calls = (length + 4095) / 4096 ∧
    (V12.generate_random_pad e fs pad_file length).rand_log.length = (length + 4095) / 4096 ∧
    (∀ c ∈ (V12.generate_random_pad e fs pad_file length).rand_log,
      1 ≤ c.length ∧ c.length ≤ BUFFER_SIZE) ∧
    ((V12.generate_random_pad e fs pad_file length).rand_log.map List.length).sum
      = length := by
  obtain ⟨b, hb, hbl⟩ := V12.malloc_isSome he.2.1
  have hrun := V12.generate_run e fs pad_file length b hlen he.1 hb
  obtain ⟨h1, h2, h3⟩ := V12.gen_loop_chunks e he.2.2.1 he.2.2.2 (V12.genStart length b)
  obtain ⟨hst, -, -, h4⟩ := V12.gen_loop_ok e he.2.2.1 he.2.2.2 (V12.genStart length b)
  have hsound := h4 ⟨rfl, fun k hk => absurd hk (Nat.not_lt_zero k)⟩
  have hcalls : (V12.generate_random_pad e fs pad_file length).rand_calls
      = (V12.gen_loop e (V12.genStart length b)).2.rand_calls := by
    rw [hrun]
    unfold V12.genFinish
    rw [hst]
  have h1' : (V12.gen_loop e (V12.genStart length b)).2.rand_calls = (length + 4095) / 4096 := by
    rw [h1]
    show 0 + (length + 4095) / 4096 = _
    omega
  refine ⟨?_, ?_, ?_, ?_⟩
  · rw [hcalls, h1']
  · rw [hrun, V12.genFinish_rand_log, hsound.1, h1']
  · rw [hrun, V12.genFinish_rand_log]
    exact h3 (fun c hc => by cases hc)
  · rw [hrun, V12.genFinish_rand_log, h2]
    show 0 + length = length
    omega

/-- Witness of C17: the default pad of 65536 bytes is generated in exactly 16
requests. -/
theorem c17_generation_chunks_witness :
    (V12.generate_random_pad calmEnv demoFiles "newpad" PAD_SIZE).rand_calls
      = (PAD_SIZE + 4095) / 4096 :=
  (c17_generation_chunks calmEnv demoFiles "newpad" PAD_SIZE (by decide)
    ⟨rfl, rfl, fun _ => rfl, fun _ n => Nat.le_refl n⟩).1

/-- C18: for every input `P` and pad `Q` with `len Q ≥ len P`, the byte-at-a-time
`process_file` of version 1.1 and the chunked `process_file` of version 1.2 both
succeed and write the same output. -/
theorem c18_versions_agree (e1 e2 : Env) (fs : Files)
    (input_file pad_file output_file : String) (encrypt : Int) (P Q : List Nat)
    (hin : fs input_file = some P) (hpad : fs pad_file = some Q)
    (hoi : output_file ≠ input_file) (hop : output_file ≠ pad_file)
    (hout1 : e1.can_create output_file = true) (hw1 : e1.writesComplete)
    (he2 : V12.NoFault e2 output_file) (hlen : P.length ≤ Q.length) :
    (V11.process_file e1 fs input_file pad_file output_file encrypt).status
      = Status.success ∧
    (V12.process_file e2 fs input_file pad_file output_file encrypt).status
      = Status.success ∧
    (V11.process_file e1 fs input_file pad_file output_file encrypt).files output_file =
      (V12.process_file e2 fs input_file pad_file output_file encrypt).files output_file := by
  obtain ⟨h1, h2, -, -⟩ := V11.char_file_opened e1 fs input_file pad_file output_file
    encrypt P Q hin hpad hoi hop hout1 hw1
  obtain ⟨k1, k2, -⟩ := V12.process_file_noFault e2 fs input_file pad_file output_file
    encrypt P Q hin hpad hoi hop he2 hlen
  exact ⟨h1, k1, by rw [h2, k2]⟩

/-- Witness of C18: both versions encrypt "HelloWorld" under the 1024-byte pad
to the same bytes. -/
theorem c18_versions_agree_witness :
    (V11.process_file calmEnv demoFiles "plain" "pad" "out" 1).files "out" =
      (V12.process_file calmEnv demoFiles "plain" "pad" "out" 1).files "out" :=
  (c18_versions_agree calmEnv calmEnv demoFiles "plain" "pad" "out" 1 helloWorld pad1024
    rfl rfl (by decide) (by decide) rfl (fun _ n => Nat.le_refl n) (calmEnv_noFault _)
    (by rw [pad1024, List.length_replicate]; decide)).2.2

/-- C19: for every input `P` and pad `Q` with `len Q < len P`, `process_file` of
version 1.1 reports no error: it returns normally with an output of exactly
`len Q` bytes, the XOR of the first `len Q` bytes of `P` with `Q`, having taken
`len Q + 1` characters from the input and dropped the rest. -/
theorem c19_silent_truncation (e : Env) (fs : Files)
    (input_file pad_file output_file : String) (encrypt : Int) (P Q : List Nat)
    (hin : fs input_file = some P) (hpad : fs pad_file = some Q)
    (hoi : output_file ≠ input_file) (hop : output_file ≠ pad_file)
    (hout : e.can_create output_file = true) (hw : e.writesComplete)
    (hP : IsBytes P) (hQ : IsBytes Q) (hlen : Q.length < P.length) :
    (V11.process_file e fs input_file pad_file output_file encrypt).status = Status.success ∧
    (V11.process_file e fs input_file pad_file output_file encrypt).files output_file
      = some (List.zipWith (fun p q => p ^^^ q) (P.take Q.length) Q) ∧
    (List.zipWith (fun p q => p ^^^ q) (P.take Q.length) Q).length = Q.length ∧
    (V11.process_file e fs input_file pad_file output_file encrypt).input_read
      = Q.length + 1 ∧
    (V11.process_file e fs input_file pad_file output_file encrypt).pad_read = Q.length := by
  obtain ⟨h1, h2, h3, h4⟩ := V11.char_file_opened e fs input_file pad_file output_file
    encrypt P Q hin hpad hoi hop hout hw
  refine ⟨h1, ?_, ?_, ?_, ?_⟩
  · rw [h2, V12.xorBytes_eq_xor P Q hP hQ]
    congr 1
    apply List.ext_getElem
    · simp
      omega
    · intro i hi1 hi2
      simp
  · simp
    omega
  · rw [h4, if_pos hlen]
  · rw [h3]
    omega

/-- Witness of C19: version 1.1 on the twenty-byte input under the ten-byte pad
returns normally. -/
theorem c19_silent_truncation_witness :
    (V11.process_file calmEnv demoFiles "twenty" "short" "out" 1).status = Status.success ∧
    (V11.process_file calmEnv demoFiles "twenty" "short" "out" 1).input_read
      = pad10.length + 1 :=
  ⟨(c19_silent_truncation calmEnv demoFiles "twenty" "short" "out" 1 input20 pad10
      rfl rfl (by decide) (by decide) rfl (fun _ n => Nat.le_refl n)
      (isBytes_replicate _ _ (by decide)) (by decide)
      (by rw [input20, List.length_replicate]; decide)).1,
   (c19_silent_truncation calmEnv demoFiles "twenty" "short" "out" 1 input20 pad10
      rfl rfl (by decide) (by decide) rfl (fun _ n => Nat.le_refl n)
      (isBytes_replicate _ _ (by decide)) (by decide)
      (by rw [input20, List.length_replicate]; decide)).2.2.2.1⟩

/-- C15: for every input `P` and pad `Q` with `len Q < len P`, when nothing else
fails `process_file` (v1.2) ends with the pad-exhausted error and the output
written so far is exactly the XOR of the first `4096 * floor(len Q / 4096)` bytes of
`P` with the same bytes of `Q`: the complete chunks before the failing one are
written and nothing of the failing chunk is. -/
theorem c15_partial_output (e : Env) (fs : Files) (input_file pad_file output_file : String)
    (encrypt : Int) (P Q : List Nat)
    (hin : fs input_file = some P) (hpad : fs pad_file = some Q)
    (hoi : output_file ≠ input_file) (hop : output_file ≠ pad_file)
    (he : V12.NoFault e output_file)
    (hP : IsBytes P) (hQ : IsBytes Q) (hlen : Q.length < P.length) :
    (V12.process_file e fs input_file pad_file output_file encrypt).status
      = Status.padExhausted ∧
    (V12.process_file e fs input_file pad_file output_file encrypt).files output_file
      = some (List.zipWith (fun p q => p ^^^ q) (P.take (4096 * (Q.length / 4096)))
          (Q.take (4096 * (Q.length / 4096)))) ∧
    (List.zipWith (fun p q => p ^^^ q) (P.take (4096 * (Q.length / 4096)))
      (Q.take (4096 * (Q.length / 4096)))).length = 4096 * (Q.length / 4096) := by
  obtain ⟨b0, b1, -, -, h1⟩ := V12.process_file_opened e fs input_file pad_file output_file
    encrypt P Q hin hpad hoi hop he.1 he.2.1 he.2.2.1
  have hst := V12.process_loop_status e he.2.2.2 (V12.ProcState.start P Q b0 b1)
  rw [V12.start_restIn, V12.start_restPad, if_neg (by omega)] at hst
  have hout := V12.process_loop_exhausted e he.2.2.2 (V12.ProcState.start P Q b0 b1)
    (by rw [V12.start_restIn, V12.start_restPad]; exact hlen)
  rw [V12.start_restIn, V12.start_restPad] at hout
  refine ⟨by rw [h1, V12.finish_status, hst], ?_, ?_⟩
  · rw [h1, V12.finish_output, hout,
      V12.xorBytes_eq_xor _ _ (V12.isBytes_take _ hP) (V12.isBytes_take _ hQ)]
    rfl
  · rw [List.length_zipWith, List.length_take, List.length_take]
    omega

/-- Witness of C15: a ten-byte pad under a twenty-byte input leaves an empty
output. -/
theorem c15_partial_output_witness :
    (V12.process_file calmEnv demoFiles "twenty" "short" "out" 1).status
      = Status.padExhausted ∧
    (V12.process_file calmEnv demoFiles "twenty" "short" "out" 1).files "out" = some [] :=
  ⟨(c15_partial_output calmEnv demoFiles "twenty" "short" "out" 1 input20 pad10
      rfl rfl (by decide) (by decide) (calmEnv_noFault _)
      (isBytes_replicate _ _ (by decide)) (by decide)
      (by rw [input20, List.length_replicate]; decide)).1,
   (c15_partial_output calmEnv demoFiles "twenty" "short" "out" 1 input20 pad10
      rfl rfl (by decide) (by decide) (calmEnv_noFault _)
      (isBytes_replicate _ _ (by decide)) (by decide)
      (by rw [input20, List.length_replicate]; decide)).2.1⟩

end OTP
